import Mathlib

/-!
Shallow embedding of the Drift regional pixel-sorting engine
(src/pixelsort.js) and proofs of the specification claims.

JavaScript numbers are modelled as exact rationals.  The two
transcendental library calls — Math.pow(c, 2.2) inside getGamma and
Math.sqrt inside pointToLineDistance — are kept abstract as explicit
function parameters pow22 and sqrtQ; every theorem below therefore holds
for all interpretations of these parameters.  Math.random is modelled as
an explicit stream rng : Nat → Rat together with a counter that advances
by one per draw.  Assignment into the Uint8ClampedArray backing store is
modelled by byteStore (clamp to [0, 255], round half to even), matching
the ECMAScript ToUint8Clamp conversion.
-/

namespace PixelSort

/-- One pixel record as built by the sort routine: canvas position, the
four colour channels and the original line position (origCol for
horizontal lines, origRow for vertical ones). -/
structure Px where
  x : ℕ
  y : ℕ
  r : ℕ
  g : ℕ
  b : ℕ
  a : ℕ
  orig : ℕ
  deriving DecidableEq, Repr

/-- The options record handed to sort(): mode and direction are the
source's strings, thresholds and noise are JS numbers, selectionPoints
is the optional polygon ([] models the absent polygon). -/
structure SortOptions where
  mode : String
  direction : String
  thresholdLower : ℚ
  thresholdUpper : ℚ
  noiseAmount : ℚ
  selectionPoints : List (ℚ × ℚ)
  feather : Bool
  featherRadius : ℚ
  deriving Repr

/-- The selection rectangle { x, y, w, h }. -/
structure Selection where
  x : ℕ
  y : ℕ
  w : ℕ
  h : ℕ
  deriving Repr

/-- ImageData: width plus the flat row-major RGBA byte array. -/
structure ImageData where
  width : ℕ
  data : List ℕ
  deriving DecidableEq, Repr

/-- getBrightness: 0.299 r + 0.587 g + 0.114 b. -/
def getBrightness (r g b : ℕ) : ℚ :=
  (299 / 1000) * r + (587 / 1000) * g + (114 / 1000) * b

/-- getGamma, with Math.pow(c, 2.2) abstracted as the parameter pow22:
linearize each channel, combine with Rec.709 weights, rescale by 255. -/
def getGamma (pow22 : ℚ → ℚ) (r g b : ℕ) : ℚ :=
  ((2126 / 10000) * pow22 ((r : ℚ) / 255)
    + (7152 / 10000) * pow22 ((g : ℚ) / 255)
    + (722 / 10000) * pow22 ((b : ℚ) / 255)) * 255

/-- Result record of rgbToHsl. -/
structure Hsl where
  h : ℚ
  s : ℚ
  l : ℚ
  deriving Repr

/-- rgbToHsl from the source: channels scaled to [0,1], lightness from
max and min, hue by the max-channel case split (r before g before b,
matching the switch statement's match order). -/
def rgbToHsl (r g b : ℕ) : Hsl :=
  let r' : ℚ := (r : ℚ) / 255
  let g' : ℚ := (g : ℚ) / 255
  let b' : ℚ := (b : ℚ) / 255
  let mx := max r' (max g' b')
  let mn := min r' (min g' b')
  let l := (mx + mn) / 2
  if mx = mn then { h := 0, s := 0, l := l * 100 }
  else
    let d := mx - mn
    let s := if l > 1 / 2 then d / (2 - mx - mn) else d / (mx + mn)
    let h :=
      if mx = r' then ((g' - b') / d + (if g' < b' then 6 else 0)) / 6
      else if mx = g' then ((b' - r') / d + 2) / 6
      else ((r' - g') / d + 4) / 6
    { h := h * 360, s := s * 100, l := l * 100 }

/-- getHue. -/
def getHue (r g b : ℕ) : ℚ := (rgbToHsl r g b).h

/-- getSaturation. -/
def getSaturation (r g b : ℕ) : ℚ := (rgbToHsl r g b).s

/-- getPixelValue: string-keyed dispatch over the seven modes; the
default branch of the switch falls back to getBrightness. -/
def getPixelValue (pow22 : ℚ → ℚ) (r g b : ℕ) (mode : String) : ℚ :=
  if mode = "brightness" then getBrightness r g b
  else if mode = "hue" then getHue r g b
  else if mode = "saturation" then getSaturation r g b
  else if mode = "red" then (r : ℚ)
  else if mode = "green" then (g : ℚ)
  else if mode = "blue" then (b : ℚ)
  else if mode = "gamma" then getGamma pow22 r g b
  else getBrightness r g b

/-- The edge list walked by the polygon loop: pairs (vs[i], vs[j]) where
j runs one step behind i and starts at the last vertex. -/
def polyEdges (vs : List (ℚ × ℚ)) : List ((ℚ × ℚ) × (ℚ × ℚ)) :=
  vs.zip (vs.getLastD (0, 0) :: vs)

/-- One edge test of the ray-casting loop: the edge spans the ray's
y-coordinate and the ray hits the edge strictly left of the point...
(the source's `(yi > y) !== (yj > y) && x < (xj-xi)*(y-yi)/(yj-yi)+xi`). -/
def edgeCrosses (p : ℚ × ℚ) (e : (ℚ × ℚ) × (ℚ × ℚ)) : Bool :=
  let xi := e.1.1
  let yi := e.1.2
  let xj := e.2.1
  let yj := e.2.2
  (decide (yi > p.2) != decide (yj > p.2))
    && decide (p.1 < (xj - xi) * (p.2 - yi) / (yj - yi) + xi)

/-- isPointInPolygon: fewer than 3 vertices count as inside (treated as
a plain rectangle); otherwise flip an inside flag once per crossing
edge, starting from false. -/
def isPointInPolygon (p : ℚ × ℚ) (vs : List (ℚ × ℚ)) : Bool :=
  if vs.length < 3 then true
  else (polyEdges vs).foldl (fun inside e => if edgeCrosses p e then !inside else inside) false

/-- The normalized threshold value of detectIntervals: hue is rescaled
from degrees, saturation from percent, all other modes pass through. -/
def normValue (pow22 : ℚ → ℚ) (mode : String) (r g b : ℕ) : ℚ :=
  let val := getPixelValue pow22 r g b mode
  if mode = "hue" then val / 360 * 255
  else if mode = "saturation" then val / 100 * 255
  else val

/-- The membership test of detectIntervals: inside the polygon mask (if
one is active) and normalized value within the closed threshold window. -/
def inIntervalTest (pow22 : ℚ → ℚ) (opts : SortOptions) (p : Px) : Bool :=
  let hasPolygon := decide (opts.selectionPoints.length > 2)
  let inMask := if hasPolygon then isPointInPolygon ((p.x : ℚ), (p.y : ℚ)) opts.selectionPoints else true
  inMask && decide (normValue pow22 opts.mode p.r p.g p.b ≥ opts.thresholdLower)
    && decide (normValue pow22 opts.mode p.r p.g p.b ≤ opts.thresholdUpper)

/-- One step of the detectIntervals scan: an in-test pixel extends the
current run, anything else closes it (runs of length > 1 are kept). -/
def detectStep (pow22 : ℚ → ℚ) (opts : SortOptions)
    (st : List (List Px) × List Px) (p : Px) : List (List Px) × List Px :=
  if inIntervalTest pow22 opts p then (st.1, st.2 ++ [p])
  else (if st.2.length > 1 then st.1 ++ [st.2] else st.1, [])

/-- detectIntervals: scan the line, collecting maximal runs of pixels
passing the mask-and-threshold test; the final run is flushed after the
loop under the same length > 1 guard. -/
def detectIntervals (pow22 : ℚ → ℚ) (pixels : List Px) (opts : SortOptions) : List (List Px) :=
  let st := pixels.foldl (detectStep pow22 opts) ([], [])
  if st.2.length > 1 then st.1 ++ [st.2] else st.1

/-- The sort key of the comparator (a, b) => getPixelValue(a) - getPixelValue(b). -/
def sortKey (pow22 : ℚ → ℚ) (mode : String) (p : Px) : ℚ :=
  getPixelValue pow22 p.r p.g p.b mode

/-- Stable insertion of a pixel into a key-sorted list: the new pixel
goes before the first strictly greater key, hence after all equal keys
— the stable ascending order of Array.prototype.sort under the
comparator (ES2019 guarantees stability). -/
def insertPx (key : Px → ℚ) (p : Px) : List Px → List Px
  | [] => [p]
  | q :: qs => if key q < key p then q :: insertPx key p qs else p :: q :: qs

/-- Stable ascending sort by key, modelling interval.sort(comparator). -/
def sortPixels (key : Px → ℚ) : List Px → List Px
  | [] => []
  | p :: ps => insertPx key p (sortPixels key ps)

/-- Swap the colour data (r, g, b, a) of entries i and j, keeping every
entry's position fields — the body of the noise loop. Out-of-range
indices never arise from Math.random but are modelled as a no-op. -/
def swapColors (l : List Px) (i j : ℕ) : List Px :=
  match l[i]?, l[j]? with
  | some p, some q =>
      (l.set i { p with r := q.r, g := q.g, b := q.b, a := q.a }).set j
        { q with r := p.r, g := p.g, b := p.b, a := p.a }
  | _, _ => l

/-- The noise loop: n remaining swaps, drawing two stream values per
iteration (index = floor(random * length)). -/
def doSwaps (rng : ℕ → ℚ) : ℕ → List Px → ℕ → List Px × ℕ
  | 0, l, k => (l, k)
  | n + 1, l, k =>
      let i := (⌊rng k * l.length⌋).toNat
      let j := (⌊rng (k + 1) * l.length⌋).toNat
      doSwaps rng n (swapColors l i j) (k + 2)

/-- applyNoise: amount ≤ 0 or fewer than two pixels returns the list
untouched without consuming randomness; otherwise perform
floor(amount / 100 * length) random pairwise colour swaps. -/
def applyNoise (rng : ℕ → ℚ) (pixels : List Px) (amount : ℚ) (k : ℕ) : List Px × ℕ :=
  if amount ≤ 0 ∨ pixels.length < 2 then (pixels, k)
  else doSwaps rng (⌊amount / 100 * pixels.length⌋).toNat pixels k

/-- Write one pixel's four channels at byte offset idx. -/
def writePx (data : List ℕ) (idx : ℕ) (p : Px) : List ℕ :=
  (((data.set idx p.r).set (idx + 1) p.g).set (idx + 2) p.b).set (idx + 3) p.a

/-- Byte offset of a pixel on a line: horizontal lines fix the row and
vary the column, vertical lines fix the column and vary the row; both
branches of the source compute (row * imgWidth + col) * 4. -/
def lineOff (width : ℕ) (horizontal : Bool) (fixed pos : ℕ) : ℕ :=
  if horizontal then (fixed * width + pos) * 4 else (pos * width + fixed) * 4

/-- One pixel record read from the buffer: canvas coordinates from the
line's fixed coordinate and the running position, colours from the four
bytes at the pixel's offset, orig remembering the running position. -/
def linePx (data : List ℕ) (width : ℕ) (horizontal : Bool) (fixed pos : ℕ) : Px :=
  let idx := lineOff width horizontal fixed pos
  { x := if horizontal then pos else fixed
    y := if horizontal then fixed else pos
    r := data.getD idx 0
    g := data.getD (idx + 1) 0
    b := data.getD (idx + 2) 0
    a := data.getD (idx + 3) 0
    orig := pos }

/-- Extract the pixel records of one line from the buffer, recording
each pixel's canvas coordinates and its original line position. -/
def buildLinePixels (data : List ℕ) (width : ℕ) (horizontal : Bool)
    (fixed start len : ℕ) : List Px :=
  (List.range len).map fun i => linePx data width horizontal fixed (start + i)

/-- Process one detected interval: remember the positions, sort the
pixels by the mode's key, apply noise, write the resulting colours back
at the remembered positions. -/
def processInterval (pow22 : ℚ → ℚ) (rng : ℕ → ℚ) (width : ℕ) (horizontal : Bool)
    (fixed : ℕ) (opts : SortOptions) (st : List ℕ × ℕ) (interval : List Px) :
    List ℕ × ℕ :=
  let positions := interval.map (fun p => p.orig)
  let sorted := sortPixels (sortKey pow22 opts.mode) interval
  let noised := applyNoise rng sorted opts.noiseAmount st.2
  ((positions.zip noised.1).foldl
      (fun d pn => writePx d (lineOff width horizontal fixed pn.1) pn.2) st.1,
    noised.2)

/-- Process one line: extract its pixels, detect the intervals, then
sort-and-write each interval in order. -/
def processLine (pow22 : ℚ → ℚ) (rng : ℕ → ℚ) (width : ℕ) (horizontal : Bool)
    (start len : ℕ) (opts : SortOptions) (st : List ℕ × ℕ) (fixed : ℕ) :
    List ℕ × ℕ :=
  let pixels := buildLinePixels st.1 width horizontal fixed start len
  (detectIntervals pow22 pixels opts).foldl
    (processInterval pow22 rng width horizontal fixed opts) st

/-- Fold processLine over the selection's lines: line i has fixed
coordinate base + i. -/
def linesFold (pow22 : ℚ → ℚ) (rng : ℕ → ℚ) (width : ℕ) (horizontal : Bool)
    (start len : ℕ) (opts : SortOptions) (base count : ℕ) (data : List ℕ) (k : ℕ) :
    List ℕ × ℕ :=
  (List.range count).foldl
    (fun st i => processLine pow22 rng width horizontal start len opts st (base + i)) (data, k)

/-- The per-line sorting pass over the whole selection: rows y..y+h-1
of columns x..x+w-1 when horizontal, columns x..x+w-1 of rows y..y+h-1
when vertical. -/
def sortPass (pow22 : ℚ → ℚ) (rng : ℕ → ℚ) (width : ℕ) (horizontal : Bool)
    (sel : Selection) (opts : SortOptions) (data : List ℕ) (k : ℕ) : List ℕ × ℕ :=
  if horizontal then
    linesFold pow22 rng width true sel.x sel.w opts sel.y sel.h data k
  else
    linesFold pow22 rng width false sel.y sel.h opts sel.x sel.w data k

/-- ECMAScript ToUint8Clamp, the conversion applied on assignment into
a Uint8ClampedArray: clamp to [0, 255] and round half to even. -/
def byteStore (q : ℚ) : ℕ :=
  if q ≤ 0 then 0
  else if 255 ≤ q then 255
  else if q - ⌊q⌋ < 1 / 2 then (⌊q⌋).toNat
  else if 1 / 2 < q - ⌊q⌋ then (⌊q⌋).toNat + 1
  else if ⌊q⌋ % 2 = 0 then (⌊q⌋).toNat else (⌊q⌋).toNat + 1

/-- pointToLineDistance, with Math.sqrt abstracted as sqrtQ: project
the point onto the segment (clamping the parameter to [0, 1]) and take
the distance to the projection. -/
def pointToLineDistance (sqrtQ : ℚ → ℚ) (px py x1 y1 x2 y2 : ℚ) : ℚ :=
  let A := px - x1
  let B := py - y1
  let C := x2 - x1
  let D := y2 - y1
  let dot := A * C + B * D
  let lenSq := C * C + D * D
  let param := if lenSq ≠ 0 then dot / lenSq else -1
  let xx := if param < 0 then x1 else if param > 1 then x2 else x1 + param * C
  let yy := if param < 0 then y1 else if param > 1 then y2 else y1 + param * D
  sqrtQ ((px - xx) * (px - xx) + (py - yy) * (py - yy))

/-- getDistanceToBoundary: with an active polygon, the minimum
point-to-segment distance over its edges (the source starts its running
minimum at Infinity, so with at least three edges this is the list
minimum); otherwise the distance to the nearest side of the rectangle. -/
def getDistanceToBoundary (sqrtQ : ℚ → ℚ) (selPoints : List (ℚ × ℚ))
    (x y w h : ℕ) (px py : ℚ) : ℚ :=
  if selPoints.length > 2 then
    match (polyEdges selPoints).map
        (fun e => pointToLineDistance sqrtQ px py e.2.1 e.2.2 e.1.1 e.1.2) with
    | [] => 0
    | d :: ds => ds.foldl min d
  else
    min (min |px - (x : ℚ)| |px - ((x : ℚ) + w)|)
      (min |py - (y : ℚ)| |py - ((y : ℚ) + h)|)

/-- The smoothstep blend factor from a boundary distance. -/
def featherFactor (dist radius : ℚ) : ℚ :=
  let t := max 0 (min 1 (dist / radius))
  t * t * (3 - 2 * t)

/-- One blended channel value: original + (sorted − original) · factor,
converted by the clamped store. -/
def blendCh (d orig : List ℕ) (i : ℕ) (factor : ℚ) : ℕ :=
  byteStore ((orig.getD i 0 : ℚ) + ((d.getD i 0 : ℚ) - (orig.getD i 0 : ℚ)) * factor)

/-- Blend the four channels at byte offset idx between the cached
original buffer and the current (sorted) buffer; the source reads all
eight operands before assigning. -/
def blendAt (d orig : List ℕ) (idx : ℕ) (factor : ℚ) : List ℕ :=
  let v0 := blendCh d orig idx factor
  let v1 := blendCh d orig (idx + 1) factor
  let v2 := blendCh d orig (idx + 2) factor
  let v3 := blendCh d orig (idx + 3) factor
  (((d.set idx v0).set (idx + 1) v1).set (idx + 2) v2).set (idx + 3) v3

/-- One pixel of the feather pass: pixels nearer to the boundary than
the radius are smoothstep-blended toward the cached original. -/
def featherAt (sqrtQ : ℚ → ℚ) (orig : List ℕ) (width : ℕ) (sel : Selection)
    (selPoints : List (ℚ × ℚ)) (radius : ℚ) (d : List ℕ) (row col : ℕ) : List ℕ :=
  let dist := getDistanceToBoundary sqrtQ selPoints sel.x sel.y sel.w sel.h (col : ℚ) (row : ℚ)
  if dist < radius then
    blendAt d orig ((row * width + col) * 4) (featherFactor dist radius)
  else d

/-- The feather pass: visit every pixel of the selection bounding box
row by row. -/
def featherPass (sqrtQ : ℚ → ℚ) (orig : List ℕ) (width : ℕ) (sel : Selection)
    (selPoints : List (ℚ × ℚ)) (radius : ℚ) (data : List ℕ) : List ℕ :=
  (List.range sel.h).foldl
    (fun d i =>
      (List.range sel.w).foldl
        (fun d2 j => featherAt sqrtQ orig width sel selPoints radius d2 (sel.y + i) (sel.x + j)) d)
    data

/-- sort(imageData, selection, options): cache the original buffer when
feathering is active, run the per-line pass in the chosen direction,
then feather-blend near the boundary.  The random counter is threaded
through and returned. -/
def sort (pow22 sqrtQ : ℚ → ℚ) (rng : ℕ → ℚ) (img : ImageData) (sel : Selection)
    (opts : SortOptions) (k : ℕ) : ImageData × ℕ :=
  let featherOn := opts.feather ∧ opts.featherRadius > 0
  let sorted := sortPass pow22 rng img.width (opts.direction = "horizontal") sel opts img.data k
  let final :=
    if featherOn then
      featherPass sqrtQ img.data img.width sel opts.selectionPoints opts.featherRadius sorted.1
    else sorted.1
  ({ img with data := final }, sorted.2)

/-! ### Direction helpers and concrete instances -/

/-- The Bool the source's direction test produces. -/
def dirHz (opts : SortOptions) : Bool := decide (opts.direction = "horizontal")

/-- Fixed-coordinate base of the line fold (y for rows, x for columns). -/
def lineBase (sel : Selection) (hz : Bool) : ℕ := if hz then sel.y else sel.x

/-- Start of the running position of a line (x for rows, y for columns). -/
def lineStart (sel : Selection) (hz : Bool) : ℕ := if hz then sel.x else sel.y

/-- Length of each line (w for rows, h for columns). -/
def lineLen (sel : Selection) (hz : Bool) : ℕ := if hz then sel.w else sel.h

/-- Number of lines (h rows, or w columns). -/
def lineCount (sel : Selection) (hz : Bool) : ℕ := if hz then sel.h else sel.w

/-- Identity interpretation for the abstract transcendental parameters. -/
def qId : ℚ → ℚ := fun q => q

/-- A concrete random stream (never consulted in witnesses with noise 0). -/
def rng0 : ℕ → ℚ := fun _ => 0

/-- The spec's 1×4 red-channel example image. -/
def img1 : ImageData := { width := 4, data := [10, 0, 0, 255, 5, 0, 0, 255, 8, 0, 0, 255, 1, 0, 0, 255] }

/-- Whole-image selection for the 1×4 example. -/
def sel1 : Selection := { x := 0, y := 0, w := 4, h := 1 }

/-- mode=red, horizontal, thresholds [0, 255], noise 0, no polygon, no feather. -/
def opts1 : SortOptions :=
  { mode := "red", direction := "horizontal", thresholdLower := 0, thresholdUpper := 255,
    noiseAmount := 0, selectionPoints := [], feather := false, featherRadius := 0 }

/-- The single interval the engine detects on the 1×4 example's row. -/
def intvl1 : List Px :=
  [{ x := 0, y := 0, r := 10, g := 0, b := 0, a := 255, orig := 0 },
   { x := 1, y := 0, r := 5, g := 0, b := 0, a := 255, orig := 1 },
   { x := 2, y := 0, r := 8, g := 0, b := 0, a := 255, orig := 2 },
   { x := 3, y := 0, r := 1, g := 0, b := 0, a := 255, orig := 3 }]

/-- 1×2 image for the option-validation claim. -/
def img3 : ImageData := { width := 2, data := [5, 0, 0, 255, 1, 0, 0, 255] }

/-- Whole-image selection for the 1×2 image. -/
def sel3 : Selection := { x := 0, y := 0, w := 2, h := 1 }

/-- Out-of-range options: thresholds outside [0, 255]. -/
def opts3 : SortOptions :=
  { mode := "red", direction := "horizontal", thresholdLower := -10, thresholdUpper := 300,
    noiseAmount := 0, selectionPoints := [], feather := false, featherRadius := 0 }

/-- Empty threshold window: lower 255, upper 0. -/
def opts4 : SortOptions :=
  { mode := "red", direction := "horizontal", thresholdLower := 255, thresholdUpper := 0,
    noiseAmount := 0, selectionPoints := [], feather := false, featherRadius := 0 }

/-- Triangle polygon with vertices (1/2, −1/2), (7/2, 5/2), (1/2, 5/2):
the pixel (2, 0) of the 3×3 bounding box lies outside it. -/
def pts5 : List (ℚ × ℚ) := [(1/2, -1/2), (7/2, 5/2), (1/2, 5/2)]

/-- 3×3 image for the polygon-mask claim; the bottom row is descending
inside the triangle so that the masked run actually reorders. -/
def img5 : ImageData :=
  { width := 3, data :=
      [10, 0, 0, 255, 20, 0, 0, 255, 30, 0, 0, 255,
       40, 0, 0, 255, 50, 0, 0, 255, 60, 0, 0, 255,
       70, 0, 0, 255, 90, 0, 0, 255, 80, 0, 0, 255] }

/-- Whole-image selection for the 3×3 image. -/
def sel5 : Selection := { x := 0, y := 0, w := 3, h := 3 }

/-- Polygon-masked options over the triangle pts5. -/
def opts5 : SortOptions :=
  { mode := "red", direction := "horizontal", thresholdLower := 0, thresholdUpper := 255,
    noiseAmount := 0, selectionPoints := pts5, feather := false, featherRadius := 0 }

/-- 3×5 image whose middle row has reds [9, 0, 5]; all other pixels are
black.  Used for the feather rounding counterexample. -/
def img7 : ImageData :=
  { width := 3, data :=
      [0, 0, 0, 255, 0, 0, 0, 255, 0, 0, 0, 255,
       0, 0, 0, 255, 0, 0, 0, 255, 0, 0, 0, 255,
       9, 0, 0, 255, 0, 0, 0, 255, 5, 0, 0, 255,
       0, 0, 0, 255, 0, 0, 0, 255, 0, 0, 0, 255,
       0, 0, 0, 255, 0, 0, 0, 255, 0, 0, 0, 255] }

/-- Whole-image selection for the 3×5 image. -/
def sel7 : Selection := { x := 0, y := 0, w := 3, h := 5 }

/-- Feathered options, radius 2. -/
def opts7 : SortOptions :=
  { mode := "red", direction := "horizontal", thresholdLower := 0, thresholdUpper := 255,
    noiseAmount := 0, selectionPoints := [], feather := true, featherRadius := 2 }

/-- Same options with feathering disabled (for the fully-sorted reference). -/
def opts7s : SortOptions :=
  { mode := "red", direction := "horizontal", thresholdLower := 0, thresholdUpper := 255,
    noiseAmount := 0, selectionPoints := [], feather := false, featherRadius := 0 }

/-- 1×2 image already in ascending red order. -/
def img9 : ImageData := { width := 2, data := [1, 0, 0, 255, 5, 0, 0, 255] }

/-- A second concrete random stream, used to exhibit rng-independence. -/
def rng1 : ℕ → ℚ := fun n => 1 / (n + 2)

/-! ### Basic buffer lemmas -/

lemma list_get_congr {α : Type} {l1 l2 : List α} (h : l1 = l2) {j : ℕ}
    (h1 : j < l1.length) (h2 : j < l2.length) : l1.get ⟨j, h1⟩ = l2.get ⟨j, h2⟩ := by
  subst h
  rfl

/-- The colour quadruple of a pixel record. -/
def colorOf (p : Px) : ℕ × ℕ × ℕ × ℕ := (p.r, p.g, p.b, p.a)

/-- The colour multiset of a pixel list. -/
def colorsOf (l : List Px) : Multiset (ℕ × ℕ × ℕ × ℕ) := ↑(l.map colorOf)

/-- The colour quadruple stored at byte offset idx of a buffer. -/
def readBlock (d : List ℕ) (idx : ℕ) : ℕ × ℕ × ℕ × ℕ :=
  (d.getD idx 0, d.getD (idx + 1) 0, d.getD (idx + 2) 0, d.getD (idx + 3) 0)

lemma getD_set_ne {l : List ℕ} {i j a : ℕ} (h : i ≠ j) :
    (l.set i a).getD j 0 = l.getD j 0 := by
  simp [List.getD, List.getElem?_set_ne h]

lemma getD_set_self {l : List ℕ} {i a : ℕ} (h : i < l.length) :
    (l.set i a).getD i 0 = a := by
  simp [List.getD, List.getElem?_set_self, h]

lemma set_getD_self (l : List ℕ) (i : ℕ) : l.set i (l.getD i 0) = l := by
  by_cases h : i < l.length
  · apply List.ext_getElem?
    intro n
    by_cases hn : n = i
    · subst hn
      rw [List.getElem?_set_self h]
      simp [List.getD, List.getElem?_eq_getElem h]
    · rw [List.getElem?_set_ne (by omega)]
  · exact List.set_eq_of_length_le (by omega)

lemma writePx_length (d : List ℕ) (idx : ℕ) (p : Px) :
    (writePx d idx p).length = d.length := by
  simp [writePx]

lemma writePx_getD_ne (d : List ℕ) (idx : ℕ) (p : Px) {n : ℕ}
    (h : ∀ c < 4, n ≠ idx + c) :
    (writePx d idx p).getD n 0 = d.getD n 0 := by
  unfold writePx
  rw [getD_set_ne (fun e => h 3 (by omega) e.symm),
    getD_set_ne (fun e => h 2 (by omega) e.symm),
    getD_set_ne (fun e => h 1 (by omega) e.symm),
    getD_set_ne (fun e => h 0 (by omega) (by simpa using e.symm))]

lemma writePx_readBlock (d : List ℕ) (idx : ℕ) (p : Px) (h : idx + 3 < d.length) :
    readBlock (writePx d idx p) idx = colorOf p := by
  unfold writePx readBlock colorOf
  have h0 : idx < d.length := by omega
  have h1 : idx + 1 < d.length := by omega
  have h2 : idx + 2 < d.length := by omega
  refine Prod.ext ?_ (Prod.ext ?_ (Prod.ext ?_ ?_)) <;> simp only
  · rw [getD_set_ne (by omega), getD_set_ne (by omega), getD_set_ne (by omega),
      getD_set_self h0]
  · rw [getD_set_ne (by omega), getD_set_ne (by omega),
      getD_set_self (by simpa using h1)]
  · rw [getD_set_ne (by omega), getD_set_self (by simpa using h2)]
  · rw [getD_set_self (by simpa using h)]

lemma writePx_self (d : List ℕ) (idx : ℕ) (p : Px)
    (hr : p.r = d.getD idx 0) (hg : p.g = d.getD (idx + 1) 0)
    (hb : p.b = d.getD (idx + 2) 0) (ha : p.a = d.getD (idx + 3) 0) :
    writePx d idx p = d := by
  unfold writePx
  rw [hr, set_getD_self, hg, set_getD_self, hb, set_getD_self, ha, set_getD_self]

/-! ### Multiset swap lemmas -/

lemma set_get_self {α : Type} (l : List α) (i : ℕ) (h : i < l.length) :
    l.set i (l.get ⟨i, h⟩) = l := by
  apply List.ext_getElem?
  intro n
  by_cases hn : n = i
  · subst hn
    rw [List.getElem?_set_self h]
    simp [List.getElem?_eq_getElem h]
  · rw [List.getElem?_set_ne (by omega)]

lemma coe_set_add {α : Type} (l : List α) (i : ℕ) (a : α) (h : i < l.length) :
    ((l.set i a : List α) : Multiset α) + {l.get ⟨i, h⟩} = (l : Multiset α) + {a} := by
  rw [List.set_eq_take_cons_drop a h]
  conv_rhs => rw [← List.take_append_drop i l, List.drop_eq_getElem_cons h]
  simp only [← Multiset.coe_singleton, ← Multiset.coe_add, List.get_eq_getElem]
  simp only [Multiset.coe_add]
  rw [Multiset.coe_eq_coe]
  refine ((List.perm_append_singleton _ _).trans ?_).trans
    (List.perm_append_singleton _ _).symm
  refine ((List.perm_middle.cons _).trans ?_).trans (List.perm_middle.symm.cons _)
  exact List.Perm.swap _ _ _

lemma set_set_swap_coe {α : Type} (l : List α) (i j : ℕ) (hi : i < l.length)
    (hj : j < l.length) :
    (((l.set i (l.get ⟨j, hj⟩)).set j (l.get ⟨i, hi⟩) : List α) : Multiset α) =
      (l : Multiset α) := by
  by_cases hij : i = j
  · subst hij
    rw [List.set_set, set_get_self]
  · have hj2 : j < (l.set i (l.get ⟨j, hj⟩)).length := by simpa using hj
    have e1 := coe_set_add (l.set i (l.get ⟨j, hj⟩)) j (l.get ⟨i, hi⟩) hj2
    have e2 := coe_set_add l i (l.get ⟨j, hj⟩) hi
    have hgj : (l.set i (l.get ⟨j, hj⟩)).get ⟨j, hj2⟩ = l.get ⟨j, hj⟩ := by
      simp [List.get_eq_getElem, List.getElem_set_ne hij]
    rw [hgj] at e1
    have : (((l.set i (l.get ⟨j, hj⟩)).set j (l.get ⟨i, hi⟩) : List α) : Multiset α)
        + {l.get ⟨j, hj⟩} = (l : Multiset α) + {l.get ⟨j, hj⟩} := by
      rw [e1, e2]
    exact add_right_cancel this

/-! ### Noise lemmas -/

lemma swapColors_length (l : List Px) (i j : ℕ) :
    (swapColors l i j).length = l.length := by
  unfold swapColors
  cases hi : l[i]? <;> cases hj : l[j]? <;> simp

lemma swapColors_colorsOf (l : List Px) (i j : ℕ) :
    colorsOf (swapColors l i j) = colorsOf l := by
  unfold swapColors
  cases hi : l[i]? with
  | none => rfl
  | some p =>
    cases hj : l[j]? with
    | none => rfl
    | some q =>
      have hi' : i < l.length := (List.getElem?_eq_some.mp hi).1
      have hj' : j < l.length := (List.getElem?_eq_some.mp hj).1
      have hpi : p = l.get ⟨i, hi'⟩ := by
        have := (List.getElem?_eq_some.mp hi).2
        simp [List.get_eq_getElem, this]
      have hqj : q = l.get ⟨j, hj'⟩ := by
        have := (List.getElem?_eq_some.mp hj).2
        simp [List.get_eq_getElem, this]
      unfold colorsOf
      rw [List.map_set, List.map_set]
      have cij : colorOf { p with r := q.r, g := q.g, b := q.b, a := q.a } =
          (l.map colorOf).get ⟨j, by simpa using hj'⟩ := by
        simp [colorOf, List.get_eq_getElem, hqj]
      have cji : colorOf { q with r := p.r, g := p.g, b := p.b, a := p.a } =
          (l.map colorOf).get ⟨i, by simpa using hi'⟩ := by
        simp [colorOf, List.get_eq_getElem, hpi]
      rw [cij, cji]
      exact set_set_swap_coe (l.map colorOf) i j (by simpa using hi') (by simpa using hj')

lemma doSwaps_length (rng : ℕ → ℚ) (n : ℕ) (l : List Px) (k : ℕ) :
    (doSwaps rng n l k).1.length = l.length := by
  induction n generalizing l k with
  | zero => rfl
  | succ m ih => rw [doSwaps]; rw [ih, swapColors_length]

lemma doSwaps_colorsOf (rng : ℕ → ℚ) (n : ℕ) (l : List Px) (k : ℕ) :
    colorsOf (doSwaps rng n l k).1 = colorsOf l := by
  induction n generalizing l k with
  | zero => rfl
  | succ m ih => rw [doSwaps]; rw [ih, swapColors_colorsOf]

lemma applyNoise_zero (rng : ℕ → ℚ) (l : List Px) (amount : ℚ) (k : ℕ)
    (h : amount ≤ 0) : applyNoise rng l amount k = (l, k) := by
  unfold applyNoise
  rw [if_pos (Or.inl h)]

lemma applyNoise_length (rng : ℕ → ℚ) (l : List Px) (amount : ℚ) (k : ℕ) :
    (applyNoise rng l amount k).1.length = l.length := by
  unfold applyNoise
  split
  · rfl
  · exact doSwaps_length ..

lemma applyNoise_colorsOf (rng : ℕ → ℚ) (l : List Px) (amount : ℚ) (k : ℕ) :
    colorsOf (applyNoise rng l amount k).1 = colorsOf l := by
  unfold applyNoise
  split
  · rfl
  · exact doSwaps_colorsOf ..

/-! ### Insertion sort lemmas -/

lemma insertPx_length (key : Px → ℚ) (p : Px) (l : List Px) :
    (insertPx key p l).length = l.length + 1 := by
  induction l with
  | nil => rfl
  | cons q qs ih =>
    unfold insertPx
    split
    · simp [ih]
    · simp

lemma insertPx_perm (key : Px → ℚ) (p : Px) (l : List Px) :
    (insertPx key p l).Perm (p :: l) := by
  induction l with
  | nil => exact List.Perm.refl _
  | cons q qs ih =>
    unfold insertPx
    split
    · exact (ih.cons q).trans (List.Perm.swap _ _ _)
    · exact List.Perm.refl _

lemma sortPixels_perm (key : Px → ℚ) (l : List Px) :
    (sortPixels key l).Perm l := by
  induction l with
  | nil => exact List.Perm.refl _
  | cons p ps ih =>
    unfold sortPixels
    exact (insertPx_perm key p _).trans (ih.cons p)

lemma sortPixels_length (key : Px → ℚ) (l : List Px) :
    (sortPixels key l).length = l.length :=
  (sortPixels_perm key l).length_eq

lemma sortPixels_colorsOf (key : Px → ℚ) (l : List Px) :
    colorsOf (sortPixels key l) = colorsOf l := by
  unfold colorsOf
  exact Multiset.coe_eq_coe.mpr ((sortPixels_perm key l).map colorOf)

lemma insertPx_sorted (key : Px → ℚ) (p : Px) (l : List Px)
    (h : l.Pairwise (fun a b => key a ≤ key b)) :
    (insertPx key p l).Pairwise (fun a b => key a ≤ key b) := by
  induction l with
  | nil => simp [insertPx]
  | cons q qs ih =>
    rw [List.pairwise_cons] at h
    unfold insertPx
    split
    · rename_i hlt
      rw [List.pairwise_cons]
      constructor
      · intro b hb
        rcases List.mem_cons.mp ((insertPx_perm key p qs).mem_iff.mp hb) with hb | hb
        · subst hb; exact le_of_lt hlt
        · exact h.1 b hb
      · exact ih h.2
    · rename_i hnlt
      rw [List.pairwise_cons]
      constructor
      · intro b hb
        rcases List.mem_cons.mp hb with hb | hb
        · subst hb; exact le_of_not_lt hnlt
        · exact le_trans (le_of_not_lt hnlt) (h.1 b hb)
      · exact List.pairwise_cons.mpr h

lemma sortPixels_sorted (key : Px → ℚ) (l : List Px) :
    (sortPixels key l).Pairwise (fun a b => key a ≤ key b) := by
  induction l with
  | nil => simp [sortPixels]
  | cons p ps ih => exact insertPx_sorted key p _ ih

lemma insertPx_front (key : Px → ℚ) (p : Px) (l : List Px)
    (h : ∀ q ∈ l.head?, ¬ key q < key p) : insertPx key p l = p :: l := by
  cases l with
  | nil => rfl
  | cons q qs =>
    unfold insertPx
    rw [if_neg (h q rfl)]

lemma sortPixels_sorted_id (key : Px → ℚ) (l : List Px)
    (h : l.Pairwise (fun a b => key a ≤ key b)) : sortPixels key l = l := by
  induction l with
  | nil => rfl
  | cons p ps ih =>
    rw [List.pairwise_cons] at h
    unfold sortPixels
    rw [ih h.2]
    apply insertPx_front
    intro q hq
    cases ps with
    | nil => simp at hq
    | cons r rs =>
      simp only [List.head?_cons, Option.mem_def, Option.some.injEq] at hq
      subst hq
      exact not_lt.mpr (h.1 _ (List.mem_cons_self _ _))

/-! ### Byte store lemmas -/

lemma byteStore_nat (n : ℕ) (h : n ≤ 255) : byteStore (n : ℚ) = n := by
  unfold byteStore
  have hfl : ⌊(n : ℚ)⌋ = (n : ℤ) := Int.floor_natCast n
  rcases Nat.eq_zero_or_pos n with h0 | h0
  · subst h0; norm_num
  · have hpos : ¬ (n : ℚ) ≤ 0 := by
      push_neg
      exact_mod_cast h0
    rw [if_neg hpos]
    by_cases h255 : n = 255
    · subst h255; norm_num
    · have hlt : ¬ (255 : ℚ) ≤ (n : ℚ) := by
        push_neg
        exact_mod_cast lt_of_le_of_ne h h255
      rw [if_neg hlt, hfl]
      rw [if_pos (by push_cast; norm_num)]
      simp

/-! ### Interval detection lemmas -/

lemma detect_foldl_sublist (pow22 : ℚ → ℚ) (opts : SortOptions) :
    ∀ (rest : List Px) (st : List (List Px) × List Px),
      List.Sublist
        ((rest.foldl (detectStep pow22 opts) st).1.flatten ++
          (rest.foldl (detectStep pow22 opts) st).2)
        ((st.1.flatten ++ st.2) ++ rest) := by
  intro rest
  induction rest with
  | nil => intro st; simp
  | cons p rest ih =>
    intro st
    rw [List.foldl_cons]
    refine (ih (detectStep pow22 opts st p)).trans ?_
    unfold detectStep
    split
    · simp [List.append_assoc]
    · split
      · refine List.Sublist.append ?_ ?_
        · simp [List.append_assoc]
        · exact List.sublist_cons_self p rest
      · simp only [List.append_nil]
        exact List.Sublist.append (List.sublist_append_left _ _)
          (List.sublist_cons_self p rest)

lemma detectIntervals_eq (pow22 : ℚ → ℚ) (pixels : List Px) (opts : SortOptions) :
    detectIntervals pow22 pixels opts =
      (if (pixels.foldl (detectStep pow22 opts) ([], [])).2.length > 1
        then (pixels.foldl (detectStep pow22 opts) ([], [])).1 ++
          [(pixels.foldl (detectStep pow22 opts) ([], [])).2]
        else (pixels.foldl (detectStep pow22 opts) ([], [])).1) := rfl

lemma detectIntervals_join_sublist (pow22 : ℚ → ℚ) (pixels : List Px)
    (opts : SortOptions) :
    List.Sublist (detectIntervals pow22 pixels opts).flatten pixels := by
  rw [detectIntervals_eq]
  have h := detect_foldl_sublist pow22 opts pixels ([], [])
  simp only [List.flatten_nil, List.nil_append] at h
  split
  · simpa using h
  · exact ((List.sublist_append_left _ _).trans h)

lemma mem_interval_mem_pixels (pow22 : ℚ → ℚ) {pixels : List Px} {opts : SortOptions}
    {I : List Px} (hI : I ∈ detectIntervals pow22 pixels opts) {p : Px} (hp : p ∈ I) :
    p ∈ pixels :=
  (detectIntervals_join_sublist pow22 pixels opts).subset (List.mem_flatten.mpr ⟨I, hI, hp⟩)

lemma detect_foldl_test (pow22 : ℚ → ℚ) (opts : SortOptions) :
    ∀ (rest : List Px) (st : List (List Px) × List Px),
      (∀ I ∈ st.1, ∀ p ∈ I, inIntervalTest pow22 opts p = true) →
      (∀ p ∈ st.2, inIntervalTest pow22 opts p = true) →
      (∀ I ∈ (rest.foldl (detectStep pow22 opts) st).1, ∀ p ∈ I,
          inIntervalTest pow22 opts p = true) ∧
      (∀ p ∈ (rest.foldl (detectStep pow22 opts) st).2, inIntervalTest pow22 opts p = true) := by
  intro rest
  induction rest with
  | nil => intro st h1 h2; exact ⟨h1, h2⟩
  | cons p rest ih =>
    intro st h1 h2
    rw [List.foldl_cons]
    apply ih
    · unfold detectStep
      split
      · exact h1
      · split
        · intro I hI
          rcases List.mem_append.mp hI with hI | hI
          · exact h1 I hI
          · rw [List.mem_singleton] at hI
            subst hI
            exact h2
        · exact h1
    · unfold detectStep
      split
      · rename_i htest
        intro q hq
        rcases List.mem_append.mp hq with hq | hq
        · exact h2 q hq
        · rw [List.mem_singleton] at hq
          subst hq
          exact htest
      · intro q hq
        simp at hq

lemma detectIntervals_test (pow22 : ℚ → ℚ) {pixels : List Px} {opts : SortOptions}
    {I : List Px} (hI : I ∈ detectIntervals pow22 pixels opts) {p : Px} (hp : p ∈ I) :
    inIntervalTest pow22 opts p = true := by
  rw [detectIntervals_eq] at hI
  have h := detect_foldl_test pow22 opts pixels ([], [])
    (by intro I hI; simp at hI) (by intro p hp; simp at hp)
  revert hI
  split
  · intro hI
    rcases List.mem_append.mp hI with hI | hI
    · exact h.1 I hI p hp
    · rw [List.mem_singleton] at hI
      subst hI
      exact h.2 p hp
  · intro hI
    exact h.1 I hI p hp

/-! ### Line pixel lemmas -/

lemma mem_buildLinePixels {data : List ℕ} {width : ℕ} {hz : Bool} {fixed start len : ℕ}
    {p : Px} :
    p ∈ buildLinePixels data width hz fixed start len ↔
      ∃ i, i < len ∧ p = linePx data width hz fixed (start + i) := by
  unfold buildLinePixels
  simp only [List.mem_map, List.mem_range]
  constructor
  · rintro ⟨i, hi, rfl⟩
    exact ⟨i, hi, rfl⟩
  · rintro ⟨i, hi, rfl⟩
    exact ⟨i, hi, rfl⟩

lemma linePx_orig (data : List ℕ) (width : ℕ) (hz : Bool) (fixed pos : ℕ) :
    (linePx data width hz fixed pos).orig = pos := rfl

lemma linePx_x (data : List ℕ) (width : ℕ) (hz : Bool) (fixed pos : ℕ) :
    (linePx data width hz fixed pos).x = if hz then pos else fixed := rfl

lemma linePx_y (data : List ℕ) (width : ℕ) (hz : Bool) (fixed pos : ℕ) :
    (linePx data width hz fixed pos).y = if hz then fixed else pos := rfl

lemma linePx_colorOf (data : List ℕ) (width : ℕ) (hz : Bool) (fixed pos : ℕ) :
    colorOf (linePx data width hz fixed pos) = readBlock data (lineOff width hz fixed pos) := rfl

lemma buildLinePixels_map_orig (data : List ℕ) (width : ℕ) (hz : Bool)
    (fixed start len : ℕ) :
    (buildLinePixels data width hz fixed start len).map (fun p => p.orig) =
      (List.range len).map (fun i => start + i) := by
  unfold buildLinePixels
  rw [List.map_map]
  rfl

lemma buildLinePixels_orig_nodup (data : List ℕ) (width : ℕ) (hz : Bool)
    (fixed start len : ℕ) :
    ((buildLinePixels data width hz fixed start len).map (fun p => p.orig)).Nodup := by
  rw [buildLinePixels_map_orig]
  exact (List.nodup_range len).map (fun a b => by omega)

lemma buildLinePixels_congr {d1 d2 : List ℕ} (width : ℕ) (hz : Bool)
    (fixed start len : ℕ)
    (h : ∀ pos, start ≤ pos → pos < start + len → ∀ c < 4,
      d1.getD (lineOff width hz fixed pos + c) 0 = d2.getD (lineOff width hz fixed pos + c) 0) :
    buildLinePixels d1 width hz fixed start len = buildLinePixels d2 width hz fixed start len := by
  unfold buildLinePixels
  apply List.map_congr_left
  intro i hi
  rw [List.mem_range] at hi
  unfold linePx
  have hb := h (start + i) (by omega) (by omega)
  simp only
  rw [show lineOff width hz fixed (start + i) = lineOff width hz fixed (start + i) + 0 by omega]
  rw [hb 0 (by omega), hb 1 (by omega), hb 2 (by omega), hb 3 (by omega)]

/-! ### Byte-offset disjointness -/

lemma mulW_add_inj {W a b a' b' : ℕ} (hb : b < W) (hb' : b' < W)
    (h : a * W + b = a' * W + b') : a = a' ∧ b = b' := by
  have hm : b = b' := by
    have h1 : (a * W + b) % W = b := by
      rw [Nat.mul_comm, Nat.mul_add_mod]
      exact Nat.mod_eq_of_lt hb
    have h2 : (a' * W + b') % W = b' := by
      rw [Nat.mul_comm, Nat.mul_add_mod]
      exact Nat.mod_eq_of_lt hb'
    rw [← h1, ← h2, h]
  refine ⟨?_, hm⟩
  subst hm
  have hW : 0 < W := by omega
  have : a * W = a' * W := by omega
  exact Nat.eq_of_mul_eq_mul_right hW this

lemma lineOff_disjoint (W : ℕ) (hz : Bool) {f pos f' pos' : ℕ}
    (hp : hz = true → pos < W ∧ pos' < W) (hf : hz = false → f < W ∧ f' < W)
    (hne : f ≠ f' ∨ pos ≠ pos') :
    ∀ c < 4, ∀ c' < 4, lineOff W hz f pos + c ≠ lineOff W hz f' pos' + c' := by
  intro c hc c' hc' heq
  cases hz with
  | true =>
    obtain ⟨h1, h2⟩ := hp rfl
    unfold lineOff at heq
    simp only [if_pos] at heq
    have hm : f * W + pos = f' * W + pos' := by omega
    have := mulW_add_inj h1 h2 hm
    rcases hne with hne | hne
    · exact hne this.1
    · exact hne this.2
  | false =>
    obtain ⟨h1, h2⟩ := hf rfl
    unfold lineOff at heq
    simp only [Bool.false_eq_true, if_neg, if_false] at heq
    have hm : pos * W + f = pos' * W + f' := by omega
    have := mulW_add_inj h1 h2 hm
    rcases hne with hne | hne
    · exact hne this.2
    · exact hne this.1

/-! ### Write fold lemmas -/

lemma wfold_length (W : ℕ) (hz : Bool) (f : ℕ) (pns : List (ℕ × Px)) (d : List ℕ) :
    (pns.foldl (fun d pn => writePx d (lineOff W hz f pn.1) pn.2) d).length = d.length := by
  induction pns generalizing d with
  | nil => rfl
  | cons pn pns ih => rw [List.foldl_cons, ih, writePx_length]

lemma wfold_getD_ne (W : ℕ) (hz : Bool) (f : ℕ) {n : ℕ} :
    ∀ (pns : List (ℕ × Px)) (d : List ℕ),
      (∀ pn ∈ pns, ∀ c < 4, n ≠ lineOff W hz f pn.1 + c) →
      (pns.foldl (fun d pn => writePx d (lineOff W hz f pn.1) pn.2) d).getD n 0 =
        d.getD n 0 := by
  intro pns
  induction pns with
  | nil => intro d h; rfl
  | cons pn pns ih =>
    intro d h
    rw [List.foldl_cons, ih _ (fun q hq => h q (List.mem_cons_of_mem pn hq)),
      writePx_getD_ne _ _ _ (h pn (List.mem_cons_self _ _))]

lemma wfold_readBlock (W : ℕ) (hz : Bool) (f : ℕ) :
    ∀ (pns : List (ℕ × Px)) (d : List ℕ) (i : ℕ) (hi : i < pns.length),
      (pns.map Prod.fst).Nodup →
      (hz = false → f < W) →
      (∀ pn ∈ pns, hz = true → pn.1 < W) →
      lineOff W hz f ((pns.get ⟨i, hi⟩).1) + 3 < d.length →
      readBlock (pns.foldl (fun d pn => writePx d (lineOff W hz f pn.1) pn.2) d)
          (lineOff W hz f ((pns.get ⟨i, hi⟩).1)) = colorOf ((pns.get ⟨i, hi⟩).2) := by
  intro pns
  induction pns with
  | nil => intro d i hi; simp at hi
  | cons pn pns ih =>
    intro d i hi hnodup hfW hposW hlen
    rw [List.map_cons, List.nodup_cons] at hnodup
    cases i with
    | zero =>
      simp only [List.get_eq_getElem, List.getElem_cons_zero] at hlen ⊢
      rw [List.foldl_cons]
      have hne : ∀ q ∈ pns, ∀ c < 4,
          lineOff W hz f pn.1 + c ≠ lineOff W hz f q.1 + c := by
        intro q hq c hc
        exact lineOff_disjoint W hz
          (fun h => ⟨hposW pn (List.mem_cons_self _ _) h, hposW q (List.mem_cons_of_mem _ hq) h⟩)
          (fun h => ⟨hfW h, hfW h⟩)
          (Or.inr (fun e => hnodup.1 (e ▸ List.mem_map_of_mem Prod.fst hq)))
          c hc c hc
      unfold readBlock
      have hg : ∀ c < 4,
          (pns.foldl (fun d pn => writePx d (lineOff W hz f pn.1) pn.2)
            (writePx d (lineOff W hz f pn.1) pn.2)).getD (lineOff W hz f pn.1 + c) 0 =
          (writePx d (lineOff W hz f pn.1) pn.2).getD (lineOff W hz f pn.1 + c) 0 := by
        intro c hc
        apply wfold_getD_ne
        intro q hq c' hc'
        exact lineOff_disjoint W hz
          (fun h => ⟨hposW pn (List.mem_cons_self _ _) h, hposW q (List.mem_cons_of_mem _ hq) h⟩)
          (fun h => ⟨hfW h, hfW h⟩)
          (Or.inr (fun e => hnodup.1 (e ▸ List.mem_map_of_mem Prod.fst hq)))
          c hc c' hc'
      have h0 := hg 0 (by omega)
      have h1 := hg 1 (by omega)
      have h2 := hg 2 (by omega)
      have h3 := hg 3 (by omega)
      rw [Nat.add_zero] at h0
      rw [h1, h2, h3]
      rw [show lineOff W hz f pn.1 = lineOff W hz f pn.1 + 0 from (Nat.add_zero _).symm] at hg
      have h0 := hg 0 (by omega)
      rw [Nat.add_zero] at h0
      rw [h0]
      have := writePx_readBlock d (lineOff W hz f pn.1) pn.2 hlen
      unfold readBlock at this
      exact this
    | succ i =>
      simp only [List.get_eq_getElem, List.getElem_cons_succ] at hlen ⊢
      rw [List.foldl_cons]
      exact ih (writePx d (lineOff W hz f pn.1) pn.2) i (by simpa using hi) hnodup.2 hfW
        (fun q hq => hposW q (List.mem_cons_of_mem _ hq))
        (by rw [writePx_length]; exact hlen)

/-! ### Interval processing lemmas -/

lemma processInterval_eq (pow22 : ℚ → ℚ) (rng : ℕ → ℚ) (width : ℕ) (hz : Bool)
    (fixed : ℕ) (opts : SortOptions) (st : List ℕ × ℕ) (I : List Px) :
    processInterval pow22 rng width hz fixed opts st I =
      ((((I.map (fun p => p.orig)).zip
            (applyNoise rng (sortPixels (sortKey pow22 opts.mode) I) opts.noiseAmount st.2).1).foldl
          (fun d pn => writePx d (lineOff width hz fixed pn.1) pn.2) st.1),
        (applyNoise rng (sortPixels (sortKey pow22 opts.mode) I) opts.noiseAmount st.2).2) := rfl

lemma processInterval_length (pow22 : ℚ → ℚ) (rng : ℕ → ℚ) (width : ℕ) (hz : Bool)
    (fixed : ℕ) (opts : SortOptions) (st : List ℕ × ℕ) (I : List Px) :
    (processInterval pow22 rng width hz fixed opts st I).1.length = st.1.length := by
  rw [processInterval_eq]
  exact wfold_length ..

lemma processInterval_getD_ne (pow22 : ℚ → ℚ) (rng : ℕ → ℚ) (width : ℕ) (hz : Bool)
    (fixed : ℕ) (opts : SortOptions) (st : List ℕ × ℕ) (I : List Px) {n : ℕ}
    (h : ∀ p ∈ I, ∀ c < 4, n ≠ lineOff width hz fixed p.orig + c) :
    (processInterval pow22 rng width hz fixed opts st I).1.getD n 0 = st.1.getD n 0 := by
  rw [processInterval_eq]
  apply wfold_getD_ne
  intro pn hpn c hc
  have := (List.of_mem_zip hpn).1
  rw [List.mem_map] at this
  obtain ⟨p, hp, hpe⟩ := this
  rw [← hpe]
  exact h p hp c hc

/-- Every member of a detected interval of a built line has its orig in
the line's position range. -/
lemma interval_orig_range (pow22 : ℚ → ℚ) {data : List ℕ} {width : ℕ} {hz : Bool}
    {fixed start len : ℕ} {opts : SortOptions} {I : List Px}
    (hI : I ∈ detectIntervals pow22 (buildLinePixels data width hz fixed start len) opts)
    {p : Px} (hp : p ∈ I) : start ≤ p.orig ∧ p.orig < start + len := by
  have hmem := mem_interval_mem_pixels pow22 hI hp
  rw [mem_buildLinePixels] at hmem
  obtain ⟨i, hi, rfl⟩ := hmem
  rw [linePx_orig]
  omega

lemma intervalsFold_length (pow22 : ℚ → ℚ) (rng : ℕ → ℚ) (width : ℕ) (hz : Bool)
    (fixed : ℕ) (opts : SortOptions) :
    ∀ (Is : List (List Px)) (st : List ℕ × ℕ),
      ((Is.foldl (processInterval pow22 rng width hz fixed opts) st).1.length = st.1.length) := by
  intro Is
  induction Is with
  | nil => intro st; rfl
  | cons I Is ih =>
    intro st
    rw [List.foldl_cons, ih, processInterval_length]

lemma intervalsFold_getD_ne (pow22 : ℚ → ℚ) (rng : ℕ → ℚ) (width : ℕ) (hz : Bool)
    (fixed : ℕ) (opts : SortOptions) {n : ℕ} :
    ∀ (Is : List (List Px)) (st : List ℕ × ℕ),
      (∀ I ∈ Is, ∀ p ∈ I, ∀ c < 4, n ≠ lineOff width hz fixed p.orig + c) →
      (Is.foldl (processInterval pow22 rng width hz fixed opts) st).1.getD n 0 =
        st.1.getD n 0 := by
  intro Is
  induction Is with
  | nil => intro st h; rfl
  | cons I Is ih =>
    intro st h
    rw [List.foldl_cons, ih _ (fun J hJ => h J (List.mem_cons_of_mem I hJ)),
      processInterval_getD_ne _ _ _ _ _ _ _ _ (h I (List.mem_cons_self _ _))]

lemma processLine_eq (pow22 : ℚ → ℚ) (rng : ℕ → ℚ) (width : ℕ) (hz : Bool)
    (start len : ℕ) (opts : SortOptions) (st : List ℕ × ℕ) (fixed : ℕ) :
    processLine pow22 rng width hz start len opts st fixed =
      (detectIntervals pow22 (buildLinePixels st.1 width hz fixed start len) opts).foldl
        (processInterval pow22 rng width hz fixed opts) st := rfl

lemma processLine_length (pow22 : ℚ → ℚ) (rng : ℕ → ℚ) (width : ℕ) (hz : Bool)
    (start len : ℕ) (opts : SortOptions) (st : List ℕ × ℕ) (fixed : ℕ) :
    (processLine pow22 rng width hz start len opts st fixed).1.length = st.1.length := by
  rw [processLine_eq]
  exact intervalsFold_length ..

lemma processLine_getD_ne (pow22 : ℚ → ℚ) (rng : ℕ → ℚ) (width : ℕ) (hz : Bool)
    (start len : ℕ) (opts : SortOptions) (st : List ℕ × ℕ) (fixed : ℕ) {n : ℕ}
    (h : ∀ pos, start ≤ pos → pos < start + len → ∀ c < 4,
      n ≠ lineOff width hz fixed pos + c) :
    (processLine pow22 rng width hz start len opts st fixed).1.getD n 0 = st.1.getD n 0 := by
  rw [processLine_eq]
  apply intervalsFold_getD_ne
  intro I hI p hp c hc
  have := interval_orig_range pow22 hI hp
  exact h p.orig this.1 this.2 c hc

lemma foldLines_length (pow22 : ℚ → ℚ) (rng : ℕ → ℚ) (width : ℕ) (hz : Bool)
    (start len : ℕ) (opts : SortOptions) (base : ℕ) :
    ∀ (is : List ℕ) (st : List ℕ × ℕ),
      ((is.foldl (fun st i => processLine pow22 rng width hz start len opts st (base + i)) st).1.length
        = st.1.length) := by
  intro is
  induction is with
  | nil => intro st; rfl
  | cons i is ih =>
    intro st
    rw [List.foldl_cons, ih, processLine_length]

lemma foldLines_getD_ne (pow22 : ℚ → ℚ) (rng : ℕ → ℚ) (width : ℕ) (hz : Bool)
    (start len : ℕ) (opts : SortOptions) (base : ℕ) {n : ℕ} :
    ∀ (is : List ℕ) (st : List ℕ × ℕ),
      (∀ i ∈ is, ∀ pos, start ≤ pos → pos < start + len → ∀ c < 4,
        n ≠ lineOff width hz (base + i) pos + c) →
      (is.foldl (fun st i => processLine pow22 rng width hz start len opts st (base + i)) st).1.getD n 0
        = st.1.getD n 0 := by
  intro is
  induction is with
  | nil => intro st h; rfl
  | cons i is ih =>
    intro st h
    rw [List.foldl_cons, ih _ (fun j hj => h j (List.mem_cons_of_mem i hj)),
      processLine_getD_ne _ _ _ _ _ _ _ _ _ (h i (List.mem_cons_self _ _))]

lemma linesFold_length (pow22 : ℚ → ℚ) (rng : ℕ → ℚ) (width : ℕ) (hz : Bool)
    (start len : ℕ) (opts : SortOptions) (base count : ℕ) (data : List ℕ) (k : ℕ) :
    (linesFold pow22 rng width hz start len opts base count data k).1.length = data.length :=
  foldLines_length ..

lemma sortPass_length (pow22 : ℚ → ℚ) (rng : ℕ → ℚ) (width : ℕ) (hz : Bool)
    (sel : Selection) (opts : SortOptions) (data : List ℕ) (k : ℕ) :
    (sortPass pow22 rng width hz sel opts data k).1.length = data.length := by
  unfold sortPass
  split <;> exact linesFold_length ..

/-! ### Fold splitting at a target line / interval -/

lemma range_foldl_split {α : Type} (g : α → ℕ → α) (count i0 : ℕ) (hi0 : i0 < count)
    (a : α) :
    (List.range count).foldl g a =
      ((List.range (count - i0 - 1)).map (fun j => i0 + 1 + j)).foldl g
        (g ((List.range i0).foldl g a) i0) := by
  have h1 : count = i0 + (1 + (count - i0 - 1)) := by omega
  conv_lhs => rw [h1]
  rw [List.range_add, List.foldl_append, List.range_add, List.map_append, List.foldl_append]
  simp only [List.range_succ, List.range_zero, List.nil_append, List.map_cons, List.map_nil,
    List.foldl_cons, List.foldl_nil, Nat.add_zero, List.map_map]
  have hfe : ((fun x => i0 + x) ∘ fun x => 1 + x) = (fun j => i0 + 1 + j) := by
    funext j
    simp only [Function.comp]
    omega
  rw [hfe]

lemma linesFold_target (pow22 : ℚ → ℚ) (rng : ℕ → ℚ) (W : ℕ) (hz : Bool)
    (start len : ℕ) (opts : SortOptions) (base count : ℕ) (data : List ℕ) (k : ℕ)
    (i0 : ℕ) (hi0 : i0 < count)
    (hzb : hz = true → start + len ≤ W) (hfb : hz = false → base + count ≤ W) :
    ∃ d' k', d'.length = data.length ∧
      (∀ pos, start ≤ pos → pos < start + len → ∀ c < 4,
        d'.getD (lineOff W hz (base + i0) pos + c) 0 =
          data.getD (lineOff W hz (base + i0) pos + c) 0) ∧
      (∀ pos, start ≤ pos → pos < start + len → ∀ c < 4,
        (linesFold pow22 rng W hz start len opts base count data k).1.getD
            (lineOff W hz (base + i0) pos + c) 0 =
          (processLine pow22 rng W hz start len opts (d', k') (base + i0)).1.getD
            (lineOff W hz (base + i0) pos + c) 0) := by
  unfold linesFold
  rw [range_foldl_split _ count i0 hi0]
  set mid := (List.range i0).foldl
    (fun st i => processLine pow22 rng W hz start len opts st (base + i)) (data, k) with hmid
  refine ⟨mid.1, mid.2, ?_, ?_, ?_⟩
  · rw [hmid]
    exact foldLines_length ..
  · intro pos hpos1 hpos2 c hc
    rw [hmid]
    apply foldLines_getD_ne
    intro i hi pos' hpos1' hpos2' c' hc'
    rw [List.mem_range] at hi
    exact (lineOff_disjoint W hz
      (fun h => ⟨by have := hzb h; omega, by have := hzb h; omega⟩)
      (fun h => ⟨by have := hfb h; omega, by have := hfb h; omega⟩)
      (Or.inl (by omega)) c' hc' c hc).symm
  · intro pos hpos1 hpos2 c hc
    apply foldLines_getD_ne
    intro j hj pos' hpos1' hpos2' c' hc'
    rw [List.mem_map] at hj
    obtain ⟨j0, hj0, rfl⟩ := hj
    exact (lineOff_disjoint W hz
      (fun h => ⟨by have := hzb h; omega, by have := hzb h; omega⟩)
      (fun h => ⟨by rw [List.mem_range] at hj0; have := hfb h; omega,
        by have := hfb h; omega⟩)
      (Or.inl (by omega)) c' hc' c hc).symm

/-- Positions of members of distinct detected intervals of one line are
distinct, and within one interval they are pairwise distinct: the joined
interval list has nodup origs. -/
lemma detect_join_orig_nodup (pow22 : ℚ → ℚ) (data : List ℕ) (W : ℕ) (hz : Bool)
    (fixed start len : ℕ) (opts : SortOptions) :
    (((detectIntervals pow22 (buildLinePixels data W hz fixed start len) opts).flatten).map
      (fun p => p.orig)).Nodup := by
  have hsub := detectIntervals_join_sublist pow22
    (buildLinePixels data W hz fixed start len) opts
  exact (buildLinePixels_orig_nodup data W hz fixed start len).sublist
    (hsub.map (fun p => p.orig))

lemma processLine_readBlock (pow22 : ℚ → ℚ) (rng : ℕ → ℚ) (W : ℕ) (hz : Bool)
    (start len : ℕ) (opts : SortOptions) (st : List ℕ × ℕ) (fixed : ℕ)
    (hzb : hz = true → start + len ≤ W) (hfW : hz = false → fixed < W)
    (hlen : ∀ pos, start ≤ pos → pos < start + len →
      lineOff W hz fixed pos + 3 < st.1.length)
    {I : List Px}
    (hI : I ∈ detectIntervals pow22 (buildLinePixels st.1 W hz fixed start len) opts) :
    ∃ k', ∀ j (hj : j < I.length),
      readBlock (processLine pow22 rng W hz start len opts st fixed).1
          (lineOff W hz fixed ((I.get ⟨j, hj⟩).orig)) =
        colorOf ((applyNoise rng (sortPixels (sortKey pow22 opts.mode) I)
            opts.noiseAmount k').1.get
          ⟨j, by rw [applyNoise_length, sortPixels_length]; exact hj⟩) := by
  obtain ⟨Js, Ks, hsplit⟩ := List.append_of_mem hI
  have hnd := detect_join_orig_nodup pow22 st.1 W hz fixed start len opts
  rw [hsplit, List.flatten_append, List.flatten_cons, List.map_append, List.map_append,
    List.nodup_append] at hnd
  obtain ⟨hndJ, hndIK, hdisJ⟩ := hnd
  rw [List.nodup_append] at hndIK
  obtain ⟨hndI, hndK, hdisIK⟩ := hndIK
  -- range facts for members
  have horig : ∀ p ∈ I, start ≤ p.orig ∧ p.orig < start + len := by
    intro p hp
    exact interval_orig_range pow22 hI hp
  have horigJs : ∀ J ∈ Js, ∀ p ∈ J, start ≤ p.orig ∧ p.orig < start + len := by
    intro J hJ p hp
    have hJmem : J ∈ detectIntervals pow22 (buildLinePixels st.1 W hz fixed start len) opts := by
      rw [hsplit]
      exact List.mem_append.mpr (Or.inl hJ)
    exact interval_orig_range pow22 hJmem hp
  have horigKs : ∀ J ∈ Ks, ∀ p ∈ J, start ≤ p.orig ∧ p.orig < start + len := by
    intro J hJ p hp
    have hJmem : J ∈ detectIntervals pow22 (buildLinePixels st.1 W hz fixed start len) opts := by
      rw [hsplit]
      exact List.mem_append.mpr (Or.inr (List.mem_cons_of_mem I hJ))
    exact interval_orig_range pow22 hJmem hp
  rw [processLine_eq, hsplit, List.foldl_append, List.foldl_cons]
  set stJ := Js.foldl (processInterval pow22 rng W hz fixed opts) st with hstJ
  refine ⟨stJ.2, ?_⟩
  intro j hj
  have hlenJ : stJ.1.length = st.1.length := by
    rw [hstJ]
    exact intervalsFold_length ..
  -- the tail fold does not touch the target block
  have htail : ∀ c < 4,
      (Ks.foldl (processInterval pow22 rng W hz fixed opts)
          (processInterval pow22 rng W hz fixed opts stJ I)).1.getD
        (lineOff W hz fixed ((I.get ⟨j, hj⟩).orig) + c) 0 =
      (processInterval pow22 rng W hz fixed opts stJ I).1.getD
        (lineOff W hz fixed ((I.get ⟨j, hj⟩).orig) + c) 0 := by
    intro c hc
    apply intervalsFold_getD_ne
    intro J hJ p hp c' hc'
    have hpr := (horigKs J hJ p hp)
    have hir := horig _ (List.get_mem I j hj)
    refine (lineOff_disjoint W hz
      (fun h => ⟨by have := hzb h; omega, by have := hzb h; omega⟩)
      (fun h => ⟨hfW h, hfW h⟩) (Or.inr ?_) c' hc' c hc).symm
    intro he
    exact hdisIK (a := (I.get ⟨j, hj⟩).orig)
      (List.mem_map_of_mem _ (List.get_mem I j hj))
      (by rw [← he]; exact List.mem_map_of_mem _ (List.mem_flatten.mpr ⟨J, hJ, hp⟩))
  -- now compute the block written by the target interval
  have htail4 : readBlock (Ks.foldl (processInterval pow22 rng W hz fixed opts)
      (processInterval pow22 rng W hz fixed opts stJ I)).1
        (lineOff W hz fixed ((I.get ⟨j, hj⟩).orig)) =
      readBlock (processInterval pow22 rng W hz fixed opts stJ I).1
        (lineOff W hz fixed ((I.get ⟨j, hj⟩).orig)) := by
    unfold readBlock
    have h0 := htail 0 (by omega)
    rw [Nat.add_zero] at h0
    rw [h0, htail 1 (by omega), htail 2 (by omega), htail 3 (by omega)]
  rw [htail4]
  -- the target interval's write fold
  rw [processInterval_eq]
  set noised := applyNoise rng (sortPixels (sortKey pow22 opts.mode) I)
    opts.noiseAmount stJ.2 with hnoised
  have hlennoised : noised.1.length = I.length := by
    rw [hnoised, applyNoise_length, sortPixels_length]
  have hlenpos : (I.map (fun p => p.orig)).length = I.length := by
    rw [List.length_map]
  have hj' : j < ((I.map (fun p => p.orig)).zip noised.1).length := by
    rw [List.length_zip, hlenpos, hlennoised]
    omega
  have hzipget : ((I.map (fun p => p.orig)).zip noised.1).get ⟨j, hj'⟩ =
      ((I.get ⟨j, hj⟩).orig, noised.1.get ⟨j, by omega⟩) := by
    simp [List.get_eq_getElem, List.getElem_zip]
  have := wfold_readBlock W hz fixed ((I.map (fun p => p.orig)).zip noised.1) stJ.1 j hj'
    (by rw [List.map_fst_zip _ _ (by omega)]; exact hndI)
    hfW
    (by
      intro pn hpn h
      have := (List.of_mem_zip hpn).1
      rw [List.mem_map] at this
      obtain ⟨p, hp, hpe⟩ := this
      have := (horig p hp).2
      have := hzb h
      omega)
    (by
      rw [hzipget, hlenJ]
      exact hlen _ (horig _ (List.get_mem I j hj)).1 (horig _ (List.get_mem I j hj)).2)
  rw [hzipget] at this
  exact this

lemma processLine_getD_ne2 (pow22 : ℚ → ℚ) (rng : ℕ → ℚ) (W : ℕ) (hz : Bool)
    (start len : ℕ) (opts : SortOptions) (st : List ℕ × ℕ) (fixed : ℕ) {n : ℕ}
    (h : ∀ I ∈ detectIntervals pow22 (buildLinePixels st.1 W hz fixed start len) opts,
      ∀ p ∈ I, ∀ c < 4, n ≠ lineOff W hz fixed p.orig + c) :
    (processLine pow22 rng W hz start len opts st fixed).1.getD n 0 = st.1.getD n 0 := by
  rw [processLine_eq]
  exact intervalsFold_getD_ne _ _ _ _ _ _ _ _ h

/-- The full per-line pass, read at a position of a detected interval of
line i0 (intervals detected over the ORIGINAL buffer): the stored block
is the noise-output colour at that slot, for the noise counter value k'
reached when the interval is processed. -/
lemma linesFold_interval_readBlock (pow22 : ℚ → ℚ) (rng : ℕ → ℚ) (W : ℕ) (hz : Bool)
    (start len : ℕ) (opts : SortOptions) (base count : ℕ) (data : List ℕ) (k : ℕ)
    (i0 : ℕ) (hi0 : i0 < count)
    (hzb : hz = true → start + len ≤ W) (hfb : hz = false → base + count ≤ W)
    (hlen : ∀ pos, start ≤ pos → pos < start + len →
      lineOff W hz (base + i0) pos + 3 < data.length)
    {I : List Px}
    (hI : I ∈ detectIntervals pow22 (buildLinePixels data W hz (base + i0) start len) opts) :
    ∃ k', ∀ j (hj : j < I.length),
      readBlock (linesFold pow22 rng W hz start len opts base count data k).1
          (lineOff W hz (base + i0) ((I.get ⟨j, hj⟩).orig)) =
        colorOf ((applyNoise rng (sortPixels (sortKey pow22 opts.mode) I)
            opts.noiseAmount k').1.get
          ⟨j, by rw [applyNoise_length, sortPixels_length]; exact hj⟩) := by
  obtain ⟨d', k', hdlen, hagree, hfinal⟩ :=
    linesFold_target pow22 rng W hz start len opts base count data k i0 hi0 hzb hfb
  have hbuild : buildLinePixels d' W hz (base + i0) start len =
      buildLinePixels data W hz (base + i0) start len :=
    buildLinePixels_congr W hz (base + i0) start len
      (fun pos h1 h2 c hc => hagree pos h1 h2 c hc)
  have hI' : I ∈ detectIntervals pow22 (buildLinePixels d' W hz (base + i0) start len) opts := by
    rw [hbuild]
    exact hI
  obtain ⟨k2, hk2⟩ := processLine_readBlock pow22 rng W hz start len opts (d', k') (base + i0)
    hzb (fun h => by have := hfb h; omega)
    (fun pos h1 h2 => by rw [hdlen]; exact hlen pos h1 h2) hI'
  refine ⟨k2, ?_⟩
  intro j hj
  have horig := interval_orig_range pow22 hI (List.get_mem I j hj)
  have hrb : readBlock (linesFold pow22 rng W hz start len opts base count data k).1
      (lineOff W hz (base + i0) ((I.get ⟨j, hj⟩).orig)) =
      readBlock (processLine pow22 rng W hz start len opts (d', k') (base + i0)).1
        (lineOff W hz (base + i0) ((I.get ⟨j, hj⟩).orig)) := by
    unfold readBlock
    have h0 := hfinal _ horig.1 horig.2 0 (by omega)
    rw [Nat.add_zero] at h0
    rw [h0, hfinal _ horig.1 horig.2 1 (by omega), hfinal _ horig.1 horig.2 2 (by omega),
      hfinal _ horig.1 horig.2 3 (by omega)]
  rw [hrb]
  exact hk2 j hj

/-- The full per-line pass leaves every byte that belongs to no detected
interval position unchanged (intervals read over the original buffer). -/
lemma linesFold_getD_untouched (pow22 : ℚ → ℚ) (rng : ℕ → ℚ) (W : ℕ) (hz : Bool)
    (start len : ℕ) (opts : SortOptions) (base count : ℕ) (data : List ℕ) (k : ℕ)
    (hzb : hz = true → start + len ≤ W) (hfb : hz = false → base + count ≤ W)
    {n : ℕ}
    (h : ∀ i, i < count →
      ∀ I ∈ detectIntervals pow22 (buildLinePixels data W hz (base + i) start len) opts,
      ∀ p ∈ I, ∀ c < 4, n ≠ lineOff W hz (base + i) p.orig + c) :
    (linesFold pow22 rng W hz start len opts base count data k).1.getD n 0 =
      data.getD n 0 := by
  by_cases hn : ∃ i0, i0 < count ∧ ∃ pos, start ≤ pos ∧ pos < start + len ∧
      ∃ c, c < 4 ∧ n = lineOff W hz (base + i0) pos + c
  · obtain ⟨i0, hi0, pos0, hp1, hp2, c0, hc0, rfl⟩ := hn
    obtain ⟨d', k', hdlen, hagree, hfinal⟩ :=
      linesFold_target pow22 rng W hz start len opts base count data k i0 hi0 hzb hfb
    have hbuild : buildLinePixels d' W hz (base + i0) start len =
        buildLinePixels data W hz (base + i0) start len :=
      buildLinePixels_congr W hz (base + i0) start len
        (fun pos h1 h2 c hc => hagree pos h1 h2 c hc)
    rw [hfinal pos0 hp1 hp2 c0 hc0]
    rw [processLine_getD_ne2 pow22 rng W hz start len opts (d', k') (base + i0)
      (by rw [hbuild]; exact h i0 hi0)]
    exact hagree pos0 hp1 hp2 c0 hc0
  · push_neg at hn
    apply foldLines_getD_ne
    intro i hi pos h1 h2 c hc
    rw [List.mem_range] at hi
    exact hn i hi pos h1 h2 c hc

/-! ### Feather pass lemmas -/

lemma list_foldl_invariant {α β : Type} (P : α → Prop) (step : α → β → α)
    (l : List β) (a : α) (ha : P a) (hstep : ∀ b ∈ l, ∀ x, P x → P (step x b)) :
    P (l.foldl step a) := by
  induction l generalizing a with
  | nil => exact ha
  | cons b bs ih =>
    rw [List.foldl_cons]
    exact ih (step a b) (hstep b (List.mem_cons_self _ _) a ha)
      (fun b' hb' x hx => hstep b' (List.mem_cons_of_mem _ hb') x hx)

lemma blendAt_length (d orig : List ℕ) (idx : ℕ) (factor : ℚ) :
    (blendAt d orig idx factor).length = d.length := by
  simp [blendAt]

lemma blendAt_getD_ne (d orig : List ℕ) (idx : ℕ) (factor : ℚ) {n : ℕ}
    (h : ∀ c < 4, n ≠ idx + c) :
    (blendAt d orig idx factor).getD n 0 = d.getD n 0 := by
  unfold blendAt
  rw [getD_set_ne (fun e => h 3 (by omega) e.symm),
    getD_set_ne (fun e => h 2 (by omega) e.symm),
    getD_set_ne (fun e => h 1 (by omega) e.symm),
    getD_set_ne (fun e => h 0 (by omega) (by simpa using e.symm))]

lemma blendAt_getD (d orig : List ℕ) (idx : ℕ) (factor : ℚ) (c : ℕ) (hc : c < 4)
    (hlen : idx + 3 < d.length) :
    (blendAt d orig idx factor).getD (idx + c) 0 = blendCh d orig (idx + c) factor := by
  unfold blendAt
  interval_cases c
  · rw [getD_set_ne (by omega), getD_set_ne (by omega), getD_set_ne (by omega)]
    rw [show idx + 0 = idx from by omega, getD_set_self (by omega)]
  · rw [getD_set_ne (by omega), getD_set_ne (by omega), getD_set_self (by simp; omega)]
  · rw [getD_set_ne (by omega), getD_set_self (by simp; omega)]
  · rw [getD_set_self (by simp; omega)]

lemma featherAt_eq (sqrtQ : ℚ → ℚ) (orig : List ℕ) (W : ℕ) (sel : Selection)
    (pts : List (ℚ × ℚ)) (R : ℚ) (d : List ℕ) (row col : ℕ) :
    featherAt sqrtQ orig W sel pts R d row col =
      if getDistanceToBoundary sqrtQ pts sel.x sel.y sel.w sel.h (col : ℚ) (row : ℚ) < R
      then blendAt d orig ((row * W + col) * 4)
        (featherFactor
          (getDistanceToBoundary sqrtQ pts sel.x sel.y sel.w sel.h (col : ℚ) (row : ℚ)) R)
      else d := rfl

lemma featherAt_length (sqrtQ : ℚ → ℚ) (orig : List ℕ) (W : ℕ) (sel : Selection)
    (pts : List (ℚ × ℚ)) (R : ℚ) (d : List ℕ) (row col : ℕ) :
    (featherAt sqrtQ orig W sel pts R d row col).length = d.length := by
  rw [featherAt_eq]
  split
  · exact blendAt_length ..
  · rfl

lemma featherAt_getD_ne (sqrtQ : ℚ → ℚ) (orig : List ℕ) (W : ℕ) (sel : Selection)
    (pts : List (ℚ × ℚ)) (R : ℚ) (d : List ℕ) (row col : ℕ) {n : ℕ}
    (h : ∀ c < 4, n ≠ (row * W + col) * 4 + c) :
    (featherAt sqrtQ orig W sel pts R d row col).getD n 0 = d.getD n 0 := by
  rw [featherAt_eq]
  split
  · exact blendAt_getD_ne _ _ _ _ h
  · rfl

/-- featherAt congruence: the result at the pixel's own block depends on
the current buffer only through that block. -/
lemma featherAt_getD_congr (sqrtQ : ℚ → ℚ) (orig : List ℕ) (W : ℕ) (sel : Selection)
    (pts : List (ℚ × ℚ)) (R : ℚ) (d1 d2 : List ℕ) (row col : ℕ)
    (hl : d1.length = d2.length)
    (hagree : ∀ c < 4, d1.getD ((row * W + col) * 4 + c) 0 = d2.getD ((row * W + col) * 4 + c) 0)
    (hlen : (row * W + col) * 4 + 3 < d1.length) (c : ℕ) (hc : c < 4) :
    (featherAt sqrtQ orig W sel pts R d1 row col).getD ((row * W + col) * 4 + c) 0 =
      (featherAt sqrtQ orig W sel pts R d2 row col).getD ((row * W + col) * 4 + c) 0 := by
  rw [featherAt_eq, featherAt_eq]
  split
  · rw [blendAt_getD _ _ _ _ c hc hlen, blendAt_getD _ _ _ _ c hc (by omega)]
    unfold blendCh
    rw [hagree c hc]
  · exact hagree c hc

/-- The value of the feather pass at a pixel of the bounding box equals
a single featherAt step applied to the pass's input buffer. -/
lemma featherPass_target (sqrtQ : ℚ → ℚ) (orig : List ℕ) (W : ℕ) (sel : Selection)
    (pts : List (ℚ × ℚ)) (R : ℚ) (data : List ℕ) (i0 j0 : ℕ)
    (hi0 : i0 < sel.h) (hj0 : j0 < sel.w) (hxw : sel.x + sel.w ≤ W)
    (hlen : ((sel.y + i0) * W + (sel.x + j0)) * 4 + 3 < data.length) (c : ℕ) (hc : c < 4) :
    (featherPass sqrtQ orig W sel pts R data).getD
        (((sel.y + i0) * W + (sel.x + j0)) * 4 + c) 0 =
      (featherAt sqrtQ orig W sel pts R data (sel.y + i0) (sel.x + j0)).getD
        (((sel.y + i0) * W + (sel.x + j0)) * 4 + c) 0 := by
  have hdisj : ∀ (i j : ℕ), j < sel.w → (i ≠ i0 ∨ j ≠ j0) → ∀ c1 < 4, ∀ c2 < 4,
      (((sel.y + i0) * W + (sel.x + j0)) * 4 + c1) ≠
        ((sel.y + i) * W + (sel.x + j)) * 4 + c2 := by
    intro i j hj hne c1 hc1 c2 hc2
    have := @lineOff_disjoint W true (sel.y + i0) (sel.x + j0) (sel.y + i) (sel.x + j)
      (fun _ => ⟨by omega, by omega⟩) (fun h => by simp at h)
      (by rcases hne with hne | hne
          · exact Or.inl (by omega)
          · exact Or.inr (by omega)) c1 hc1 c2 hc2
    unfold lineOff at this
    simpa using this
  unfold featherPass
  rw [range_foldl_split _ sel.h i0 hi0]
  -- the rows before i0 leave the target block and the length unchanged
  have hmid := list_foldl_invariant
    (fun d' => d'.length = data.length ∧
      ∀ c' < 4, d'.getD (((sel.y + i0) * W + (sel.x + j0)) * 4 + c') 0 =
        data.getD (((sel.y + i0) * W + (sel.x + j0)) * 4 + c') 0)
    (fun d i => (List.range sel.w).foldl
      (fun d2 j => featherAt sqrtQ orig W sel pts R d2 (sel.y + i) (sel.x + j)) d)
    (List.range i0) data ⟨rfl, fun c' _ => rfl⟩
    (by
      intro i hi d' hP
      rw [List.mem_range] at hi
      refine list_foldl_invariant (fun d' => d'.length = data.length ∧
        ∀ c' < 4, d'.getD (((sel.y + i0) * W + (sel.x + j0)) * 4 + c') 0 =
          data.getD (((sel.y + i0) * W + (sel.x + j0)) * 4 + c') 0)
        _ (List.range sel.w) d' hP ?_
      intro j hj d2 hP2
      rw [List.mem_range] at hj
      refine ⟨by rw [featherAt_length]; exact hP2.1, ?_⟩
      intro c' hc'
      rw [featherAt_getD_ne _ _ _ _ _ _ _ _ _
        (fun c2 hc2 => hdisj i j hj (Or.inl (by omega)) c' hc' c2 hc2)]
      exact hP2.2 c' hc')
  set mid := (List.range i0).foldl
    (fun d i => (List.range sel.w).foldl
      (fun d2 j => featherAt sqrtQ orig W sel pts R d2 (sel.y + i) (sel.x + j)) d) data
    with hmiddef
  -- the i0-th row: split the column fold at j0
  rw [range_foldl_split _ sel.w j0 hj0]
  have hmid2 := list_foldl_invariant
    (fun d' => d'.length = data.length ∧
      ∀ c' < 4, d'.getD (((sel.y + i0) * W + (sel.x + j0)) * 4 + c') 0 =
        data.getD (((sel.y + i0) * W + (sel.x + j0)) * 4 + c') 0)
    (fun d2 j => featherAt sqrtQ orig W sel pts R d2 (sel.y + i0) (sel.x + j))
    (List.range j0) mid hmid
    (by
      intro j hj d2 hP2
      rw [List.mem_range] at hj
      refine ⟨by rw [featherAt_length]; exact hP2.1, ?_⟩
      intro c' hc'
      rw [featherAt_getD_ne _ _ _ _ _ _ _ _ _
        (fun c2 hc2 => hdisj i0 j (by omega) (Or.inr (by omega)) c' hc' c2 hc2)]
      exact hP2.2 c' hc')
  set mid2 := (List.range j0).foldl
    (fun d2 j => featherAt sqrtQ orig W sel pts R d2 (sel.y + i0) (sel.x + j)) mid
    with hmid2def
  -- the j0-th column applies featherAt on a buffer agreeing with data at the block
  have hstep : ∀ c' < 4,
      (featherAt sqrtQ orig W sel pts R mid2 (sel.y + i0) (sel.x + j0)).getD
          (((sel.y + i0) * W + (sel.x + j0)) * 4 + c') 0 =
        (featherAt sqrtQ orig W sel pts R data (sel.y + i0) (sel.x + j0)).getD
          (((sel.y + i0) * W + (sel.x + j0)) * 4 + c') 0 := by
    intro c' hc'
    exact featherAt_getD_congr sqrtQ orig W sel pts R mid2 data (sel.y + i0) (sel.x + j0)
      hmid2.1 hmid2.2 (by rw [hmid2.1]; exact hlen) c' hc'
  -- the columns after j0 and the rows after i0 leave the block unchanged
  have hrest := list_foldl_invariant
    (fun d' => d'.length = data.length ∧
      ∀ c' < 4, d'.getD (((sel.y + i0) * W + (sel.x + j0)) * 4 + c') 0 =
        (featherAt sqrtQ orig W sel pts R data (sel.y + i0) (sel.x + j0)).getD
          (((sel.y + i0) * W + (sel.x + j0)) * 4 + c') 0)
    (fun d2 j => featherAt sqrtQ orig W sel pts R d2 (sel.y + i0) (sel.x + j))
    ((List.range (sel.w - j0 - 1)).map (fun j => j0 + 1 + j))
    (featherAt sqrtQ orig W sel pts R mid2 (sel.y + i0) (sel.x + j0))
    ⟨by rw [featherAt_length]; exact hmid2.1, hstep⟩
    (by
      intro j hj d2 hP2
      rw [List.mem_map] at hj
      obtain ⟨j1, hj1, rfl⟩ := hj
      rw [List.mem_range] at hj1
      refine ⟨by rw [featherAt_length]; exact hP2.1, ?_⟩
      intro c' hc'
      rw [featherAt_getD_ne _ _ _ _ _ _ _ _ _
        (fun c2 hc2 => hdisj i0 (j0 + 1 + j1) (by omega) (Or.inr (by omega)) c' hc' c2 hc2)]
      exact hP2.2 c' hc')
  set rowEnd := ((List.range (sel.w - j0 - 1)).map (fun j => j0 + 1 + j)).foldl
    (fun d2 j => featherAt sqrtQ orig W sel pts R d2 (sel.y + i0) (sel.x + j))
    (featherAt sqrtQ orig W sel pts R mid2 (sel.y + i0) (sel.x + j0)) with hrowEnd
  have hfinal := list_foldl_invariant
    (fun d' => d'.length = data.length ∧
      ∀ c' < 4, d'.getD (((sel.y + i0) * W + (sel.x + j0)) * 4 + c') 0 =
        (featherAt sqrtQ orig W sel pts R data (sel.y + i0) (sel.x + j0)).getD
          (((sel.y + i0) * W + (sel.x + j0)) * 4 + c') 0)
    (fun d i => (List.range sel.w).foldl
      (fun d2 j => featherAt sqrtQ orig W sel pts R d2 (sel.y + i) (sel.x + j)) d)
    ((List.range (sel.h - i0 - 1)).map (fun i => i0 + 1 + i)) rowEnd hrest
    (by
      intro i hi d' hP
      rw [List.mem_map] at hi
      obtain ⟨i1, hi1, rfl⟩ := hi
      rw [List.mem_range] at hi1
      refine list_foldl_invariant (fun d' => d'.length = data.length ∧
        ∀ c' < 4, d'.getD (((sel.y + i0) * W + (sel.x + j0)) * 4 + c') 0 =
          (featherAt sqrtQ orig W sel pts R data (sel.y + i0) (sel.x + j0)).getD
            (((sel.y + i0) * W + (sel.x + j0)) * 4 + c') 0)
        _ (List.range sel.w) d' hP ?_
      intro j hj d2 hP2
      rw [List.mem_range] at hj
      refine ⟨by rw [featherAt_length]; exact hP2.1, ?_⟩
      intro c' hc'
      rw [featherAt_getD_ne _ _ _ _ _ _ _ _ _
        (fun c2 hc2 => hdisj (i0 + 1 + i1) j hj (Or.inl (by omega)) c' hc' c2 hc2)]
      exact hP2.2 c' hc')
  exact hfinal.2 c hc

lemma featherPass_length (sqrtQ : ℚ → ℚ) (orig : List ℕ) (W : ℕ) (sel : Selection)
    (pts : List (ℚ × ℚ)) (R : ℚ) (data : List ℕ) :
    (featherPass sqrtQ orig W sel pts R data).length = data.length := by
  unfold featherPass
  refine list_foldl_invariant (fun d' => d'.length = data.length) _ _ data rfl ?_
  intro i hi d' hP
  refine list_foldl_invariant (fun d' => d'.length = data.length) _ _ d' hP ?_
  intro j hj d2 hP2
  rw [featherAt_length]
  exact hP2

lemma featherPass_getD_ne (sqrtQ : ℚ → ℚ) (orig : List ℕ) (W : ℕ) (sel : Selection)
    (pts : List (ℚ × ℚ)) (R : ℚ) (data : List ℕ) {n : ℕ}
    (h : ∀ i < sel.h, ∀ j < sel.w, ∀ c < 4,
      n ≠ ((sel.y + i) * W + (sel.x + j)) * 4 + c) :
    (featherPass sqrtQ orig W sel pts R data).getD n 0 = data.getD n 0 := by
  unfold featherPass
  refine list_foldl_invariant (fun d' => d'.getD n 0 = data.getD n 0) _ _ data rfl ?_
  intro i hi d' hP
  rw [List.mem_range] at hi
  refine list_foldl_invariant (fun d' => d'.getD n 0 = data.getD n 0) _ _ d' hP ?_
  intro j hj d2 hP2
  rw [List.mem_range] at hj
  rw [featherAt_getD_ne _ _ _ _ _ _ _ _ _ (fun c hc => h i hi j hj c hc)]
  exact hP2

lemma getD_le_255 {d : List ℕ} (hb : ∀ v ∈ d, v ≤ 255) (i : ℕ) : d.getD i 0 ≤ 255 := by
  by_cases h : i < d.length
  · have he : d.getD i 0 = d.get ⟨i, h⟩ := by
      simp [List.getD, List.getElem?_eq_getElem h, List.get_eq_getElem]
    rw [he]
    exact hb _ (List.get_mem d i h)
  · rw [List.getD_eq_default _ _ (by omega)]
    omega

lemma blendCh_self (d : List ℕ) (i : ℕ) (factor : ℚ) (hb : ∀ v ∈ d, v ≤ 255) :
    blendCh d d i factor = d.getD i 0 := by
  unfold blendCh
  rw [sub_self, zero_mul, add_zero]
  exact byteStore_nat _ (getD_le_255 hb i)

lemma blendAt_self (d : List ℕ) (idx : ℕ) (factor : ℚ) (hb : ∀ v ∈ d, v ≤ 255) :
    blendAt d d idx factor = d := by
  unfold blendAt
  simp only [blendCh_self d _ factor hb]
  rw [set_getD_self, set_getD_self, set_getD_self, set_getD_self]

lemma featherAt_self (sqrtQ : ℚ → ℚ) (W : ℕ) (sel : Selection) (pts : List (ℚ × ℚ))
    (R : ℚ) (d : List ℕ) (row col : ℕ) (hb : ∀ v ∈ d, v ≤ 255) :
    featherAt sqrtQ d W sel pts R d row col = d := by
  rw [featherAt_eq]
  split
  · exact blendAt_self d _ _ hb
  · rfl

lemma featherPass_self (sqrtQ : ℚ → ℚ) (W : ℕ) (sel : Selection) (pts : List (ℚ × ℚ))
    (R : ℚ) (data : List ℕ) (hb : ∀ v ∈ data, v ≤ 255) :
    featherPass sqrtQ data W sel pts R data = data := by
  unfold featherPass
  refine list_foldl_invariant (fun d' => d' = data) _ _ data rfl ?_
  intro i hi d' hP
  refine list_foldl_invariant (fun d' => d' = data) _ _ d' hP ?_
  intro j hj d2 hP2
  rw [hP2]
  exact featherAt_self sqrtQ W sel pts R data _ _ hb

/-! ### The top-level sort equation -/

lemma sort_eq (pow22 sqrtQ : ℚ → ℚ) (rng : ℕ → ℚ) (img : ImageData) (sel : Selection)
    (opts : SortOptions) (k : ℕ) :
    sort pow22 sqrtQ rng img sel opts k =
      ({ img with data :=
          if opts.feather ∧ opts.featherRadius > 0
          then (featherPass sqrtQ img.data img.width sel opts.selectionPoints opts.featherRadius
            (sortPass pow22 rng img.width (opts.direction = "horizontal") sel opts img.data k).1)
          else ((sortPass pow22 rng img.width (opts.direction = "horizontal") sel opts img.data k).1) },
        (sortPass pow22 rng img.width (opts.direction = "horizontal") sel opts img.data k).2) := rfl

/-! ### Noise-free determinism lemmas -/

lemma processInterval_zero (pow22 : ℚ → ℚ) (rng : ℕ → ℚ) (W : ℕ) (hz : Bool)
    (fixed : ℕ) (opts : SortOptions) (h0 : opts.noiseAmount = 0) (st : List ℕ × ℕ)
    (I : List Px) :
    processInterval pow22 rng W hz fixed opts st I =
      (((I.map (fun p => p.orig)).zip (sortPixels (sortKey pow22 opts.mode) I)).foldl
          (fun d pn => writePx d (lineOff W hz fixed pn.1) pn.2) st.1,
        st.2) := by
  rw [processInterval_eq, h0, applyNoise_zero _ _ _ _ le_rfl]

lemma intervalsFold_zero (pow22 : ℚ → ℚ) (rng rng' : ℕ → ℚ) (W : ℕ) (hz : Bool)
    (fixed : ℕ) (opts : SortOptions) (h0 : opts.noiseAmount = 0) :
    ∀ (Is : List (List Px)) (st : List ℕ × ℕ),
      Is.foldl (processInterval pow22 rng W hz fixed opts) st =
        Is.foldl (processInterval pow22 rng' W hz fixed opts) st ∧
      (Is.foldl (processInterval pow22 rng W hz fixed opts) st).2 = st.2 := by
  intro Is
  induction Is with
  | nil => intro st; exact ⟨rfl, rfl⟩
  | cons I Is ih =>
    intro st
    rw [List.foldl_cons, List.foldl_cons]
    have he : processInterval pow22 rng W hz fixed opts st I =
        processInterval pow22 rng' W hz fixed opts st I := by
      rw [processInterval_zero _ _ _ _ _ _ h0, processInterval_zero _ _ _ _ _ _ h0]
    rw [he]
    refine ⟨(ih _).1, ?_⟩
    rw [← he]
    have h2 := (ih (processInterval pow22 rng W hz fixed opts st I))
    rw [he] at h2
    rw [he, h2.2, ← he, processInterval_zero _ _ _ _ _ _ h0]

lemma processLine_zero (pow22 : ℚ → ℚ) (rng rng' : ℕ → ℚ) (W : ℕ) (hz : Bool)
    (start len : ℕ) (opts : SortOptions) (h0 : opts.noiseAmount = 0)
    (st : List ℕ × ℕ) (fixed : ℕ) :
    processLine pow22 rng W hz start len opts st fixed =
      processLine pow22 rng' W hz start len opts st fixed ∧
    (processLine pow22 rng W hz start len opts st fixed).2 = st.2 := by
  rw [processLine_eq, processLine_eq]
  exact intervalsFold_zero pow22 rng rng' W hz fixed opts h0 _ st

lemma foldLines_zero (pow22 : ℚ → ℚ) (rng rng' : ℕ → ℚ) (W : ℕ) (hz : Bool)
    (start len : ℕ) (opts : SortOptions) (h0 : opts.noiseAmount = 0) (base : ℕ) :
    ∀ (is : List ℕ) (st : List ℕ × ℕ),
      is.foldl (fun st i => processLine pow22 rng W hz start len opts st (base + i)) st =
        is.foldl (fun st i => processLine pow22 rng' W hz start len opts st (base + i)) st ∧
      (is.foldl (fun st i => processLine pow22 rng W hz start len opts st (base + i)) st).2 =
        st.2 := by
  intro is
  induction is with
  | nil => intro st; exact ⟨rfl, rfl⟩
  | cons i is ih =>
    intro st
    rw [List.foldl_cons, List.foldl_cons]
    have he := processLine_zero pow22 rng rng' W hz start len opts h0 st (base + i)
    rw [he.1]
    refine ⟨(ih _).1, ?_⟩
    have h2 := ih (processLine pow22 rng' W hz start len opts st (base + i))
    rw [h2.2, ← he.1, he.2]

lemma sortPass_zero (pow22 : ℚ → ℚ) (rng rng' : ℕ → ℚ) (W : ℕ) (hz : Bool)
    (sel : Selection) (opts : SortOptions) (h0 : opts.noiseAmount = 0)
    (data : List ℕ) (k : ℕ) :
    sortPass pow22 rng W hz sel opts data k = sortPass pow22 rng' W hz sel opts data k ∧
    (sortPass pow22 rng W hz sel opts data k).2 = k := by
  unfold sortPass linesFold
  split
  · exact foldLines_zero pow22 rng rng' W true sel.x sel.w opts h0 sel.y _ (data, k)
  · exact foldLines_zero pow22 rng rng' W false sel.y sel.h opts h0 sel.x _ (data, k)

/-! ### Direction bridging and bounds -/

lemma sortPass_eq_linesFold (pow22 : ℚ → ℚ) (rng : ℕ → ℚ) (W : ℕ) (hz : Bool)
    (sel : Selection) (opts : SortOptions) (data : List ℕ) (k : ℕ) :
    sortPass pow22 rng W hz sel opts data k =
      linesFold pow22 rng W hz (lineStart sel hz) (lineLen sel hz) opts
        (lineBase sel hz) (lineCount sel hz) data k := by
  cases hz <;> rfl

lemma lineOff_lt_length {W imgH : ℕ} (hz : Bool) {f pos : ℕ}
    (hp : hz = true → f < imgH ∧ pos < W) (hv : hz = false → f < W ∧ pos < imgH) :
    lineOff W hz f pos + 3 < W * imgH * 4 := by
  have key : ∀ a b A B : ℕ, a < A → b < B → a * B + b < A * B := by
    intro a b A B ha hb
    calc a * B + b < a * B + B := by omega
      _ = (a + 1) * B := by rw [Nat.succ_mul]
      _ ≤ A * B := Nat.mul_le_mul_right B ha
  cases hz with
  | true =>
    obtain ⟨h1, h2⟩ := hp rfl
    unfold lineOff
    simp only [if_pos]
    have := key f pos imgH W h1 h2
    have hc : W * imgH = imgH * W := Nat.mul_comm W imgH
    omega
  | false =>
    obtain ⟨h1, h2⟩ := hv rfl
    unfold lineOff
    simp only [Bool.false_eq_true, if_false]
    have := key pos f imgH W h2 h1
    have hc : W * imgH = imgH * W := Nat.mul_comm W imgH
    omega

/-! ### Ray casting parity -/

lemma foldl_flip_parity {β : Type} (P : β → Bool) :
    ∀ (l : List β) (b : Bool),
      l.foldl (fun acc e => if P e then !acc else acc) b =
        xor b (decide (l.countP P % 2 = 1)) := by
  intro l
  induction l with
  | nil => intro b; simp
  | cons e l ih =>
    intro b
    rw [List.foldl_cons, ih, List.countP_cons]
    by_cases hP : P e = true
    · rw [if_pos hP, hP]
      have hone : (l.countP P + if (true : Bool) = true then 1 else 0) = l.countP P + 1 := by
        simp
      rw [hone]
      rcases Nat.mod_two_eq_zero_or_one (l.countP P) with h | h
      · rw [show decide (l.countP P % 2 = 1) = false from by simp [h],
          show decide ((l.countP P + 1) % 2 = 1) = true from by simp [Nat.add_mod, h]]
        cases b <;> rfl
      · rw [show decide (l.countP P % 2 = 1) = true from by simp [h],
          show decide ((l.countP P + 1) % 2 = 1) = false from by simp [Nat.add_mod, h]]
        cases b <;> rfl
    · rw [if_neg hP]
      have hzero : (l.countP P + if P e = true then 1 else 0) = l.countP P := by
        simp [hP]
      rw [hzero]

/-- The code's ray-casting loop computes precisely the even-odd rule of
the spec: the point is inside iff a horizontal ray to +infinity crosses
an odd number of polygon edges. -/
lemma isPointInPolygon_parity (p : ℚ × ℚ) (vs : List (ℚ × ℚ)) (h3 : ¬ vs.length < 3) :
    isPointInPolygon p vs =
      decide ((polyEdges vs).countP (edgeCrosses p) % 2 = 1) := by
  unfold isPointInPolygon
  rw [if_neg h3, foldl_flip_parity]
  simp

/-! ### Empty threshold window -/

lemma inIntervalTest_false_of_lt (pow22 : ℚ → ℚ) {opts : SortOptions}
    (hlt : opts.thresholdUpper < opts.thresholdLower) (p : Px) :
    inIntervalTest pow22 opts p = false := by
  rw [Bool.eq_false_iff]
  intro h
  unfold inIntervalTest at h
  simp only [Bool.and_eq_true, decide_eq_true_eq] at h
  linarith [h.1.2, h.2]

lemma detectIntervals_nil (pow22 : ℚ → ℚ) {opts : SortOptions}
    (h : ∀ p : Px, inIntervalTest pow22 opts p = false) (pixels : List Px) :
    detectIntervals pow22 pixels opts = [] := by
  rw [detectIntervals_eq]
  have hfold : ∀ (rest : List Px),
      rest.foldl (detectStep pow22 opts) ([], []) = (([], []) : List (List Px) × List Px) := by
    intro rest
    induction rest with
    | nil => rfl
    | cons p rest ih =>
      rw [List.foldl_cons]
      have hstep : detectStep pow22 opts ([], []) p = ([], []) := by
        unfold detectStep
        rw [h p]
        simp
      rw [hstep, ih]
  rw [hfold]
  simp

/-! ### Zip with self positions -/

lemma zip_map_orig_self (I : List Px) :
    (I.map (fun p => p.orig)).zip I = I.map (fun p => (p.orig, p)) := by
  induction I with
  | nil => rfl
  | cons p ps ih => simp [List.zip_cons_cons, ih]

/-! ### Noise-free pass: counter and stream independence -/

lemma intervalsFold_zero2 (pow22 : ℚ → ℚ) (rng rng' : ℕ → ℚ) (W : ℕ) (hz : Bool)
    (fixed : ℕ) (opts : SortOptions) (h0 : opts.noiseAmount = 0) :
    ∀ (Is : List (List Px)) (d : List ℕ) (k1 k2 : ℕ),
      Is.foldl (processInterval pow22 rng W hz fixed opts) (d, k1) =
        ((Is.foldl (processInterval pow22 rng' W hz fixed opts) (d, k2)).1, k1) := by
  intro Is
  induction Is with
  | nil => intro d k1 k2; rfl
  | cons I Is ih =>
    intro d k1 k2
    rw [List.foldl_cons, List.foldl_cons,
      processInterval_zero pow22 rng W hz fixed opts h0 (d, k1) I,
      processInterval_zero pow22 rng' W hz fixed opts h0 (d, k2) I]
    exact ih _ k1 k2

lemma processLine_zero2 (pow22 : ℚ → ℚ) (rng rng' : ℕ → ℚ) (W : ℕ) (hz : Bool)
    (start len : ℕ) (opts : SortOptions) (h0 : opts.noiseAmount = 0)
    (d : List ℕ) (k1 k2 : ℕ) (fixed : ℕ) :
    processLine pow22 rng W hz start len opts (d, k1) fixed =
      ((processLine pow22 rng' W hz start len opts (d, k2) fixed).1, k1) := by
  rw [processLine_eq, processLine_eq]
  exact intervalsFold_zero2 pow22 rng rng' W hz fixed opts h0 _ d k1 k2

lemma foldLines_zero2 (pow22 : ℚ → ℚ) (rng rng' : ℕ → ℚ) (W : ℕ) (hz : Bool)
    (start len : ℕ) (opts : SortOptions) (h0 : opts.noiseAmount = 0) (base : ℕ) :
    ∀ (is : List ℕ) (d : List ℕ) (k1 k2 : ℕ),
      is.foldl (fun st i => processLine pow22 rng W hz start len opts st (base + i)) (d, k1) =
        ((is.foldl (fun st i => processLine pow22 rng' W hz start len opts st (base + i))
          (d, k2)).1, k1) := by
  intro is
  induction is with
  | nil => intro d k1 k2; rfl
  | cons i is ih =>
    intro d k1 k2
    rw [List.foldl_cons, List.foldl_cons,
      processLine_zero2 pow22 rng rng' W hz start len opts h0 d k1 k2 (base + i)]
    obtain ⟨d2, k3⟩ := processLine pow22 rng' W hz start len opts (d, k2) (base + i)
    exact ih d2 k1 k3

lemma sortPass_zero2 (pow22 : ℚ → ℚ) (rng rng' : ℕ → ℚ) (W : ℕ) (hz : Bool)
    (sel : Selection) (opts : SortOptions) (h0 : opts.noiseAmount = 0)
    (data : List ℕ) (k1 k2 : ℕ) :
    sortPass pow22 rng W hz sel opts data k1 =
      ((sortPass pow22 rng' W hz sel opts data k2).1, k1) := by
  unfold sortPass linesFold
  split
  · exact foldLines_zero2 pow22 rng rng' W true sel.x sel.w opts h0 sel.y _ data k1 k2
  · exact foldLines_zero2 pow22 rng rng' W false sel.y sel.h opts h0 sel.x _ data k1 k2

lemma bbox_block_ne {W : ℕ} {px py row col c c2 : ℕ} (hpx : px < W) (hcol : col < W)
    (hne : px ≠ col ∨ py ≠ row) (hc : c < 4) (hc2 : c2 < 4) :
    (py * W + px) * 4 + c ≠ (row * W + col) * 4 + c2 := by
  intro he
  have hm : py * W + px = row * W + col := by
    have h1 : (py * W + px) * 4 + c = (row * W + col) * 4 + c2 := he
    generalize py * W + px = A at h1
    generalize row * W + col = B at h1
    omega
  have := mulW_add_inj hpx hcol hm
  rcases hne with hne | hne
  · exact hne this.2
  · exact hne this.1

/-- A pixel outside the bounding box is outside every line block of the
per-line pass (in either direction). -/
lemma outside_bbox_lineOff_ne {W : ℕ} (hz : Bool) {sel : Selection}
    (hW : sel.x + sel.w ≤ W) {px py : ℕ} (hpx : px < W)
    (hout : ¬ (sel.x ≤ px ∧ px < sel.x + sel.w ∧ sel.y ≤ py ∧ py < sel.y + sel.h))
    {i pos c c2 : ℕ} (hi : i < lineCount sel hz)
    (hp1 : lineStart sel hz ≤ pos) (hp2 : pos < lineStart sel hz + lineLen sel hz)
    (hc : c < 4) (hc2 : c2 < 4) :
    (py * W + px) * 4 + c ≠ lineOff W hz (lineBase sel hz + i) pos + c2 := by
  cases hz with
  | true =>
    simp only [lineBase, lineStart, lineLen, lineCount, if_pos] at hi hp1 hp2 ⊢
    unfold lineOff
    simp only [if_pos]
    refine bbox_block_ne hpx (by omega) ?_ hc hc2
    by_contra hcon
    push_neg at hcon
    exact hout ⟨by omega, by omega, by omega, by omega⟩
  | false =>
    simp only [lineBase, lineStart, lineLen, lineCount, Bool.false_eq_true,
      if_false] at hi hp1 hp2 ⊢
    unfold lineOff
    simp only [Bool.false_eq_true, if_false]
    refine bbox_block_ne hpx (by omega) ?_ hc hc2
    by_contra hcon
    push_neg at hcon
    exact hout ⟨by omega, by omega, by omega, by omega⟩

/-! ### Sorted-input identity lemmas -/

lemma processInterval_sorted_self (pow22 : ℚ → ℚ) (rng : ℕ → ℚ) (W : ℕ) (hz : Bool)
    (fixed start len : ℕ) (opts : SortOptions) (h0 : opts.noiseAmount = 0)
    (d : List ℕ) (k : ℕ) {I : List Px}
    (hI : I ∈ detectIntervals pow22 (buildLinePixels d W hz fixed start len) opts)
    (hsorted : I.Pairwise (fun p q => sortKey pow22 opts.mode p ≤ sortKey pow22 opts.mode q)) :
    processInterval pow22 rng W hz fixed opts (d, k) I = (d, k) := by
  rw [processInterval_zero pow22 rng W hz fixed opts h0 (d, k) I]
  simp only [Prod.mk.injEq, and_true]
  rw [sortPixels_sorted_id _ _ hsorted, zip_map_orig_self]
  refine list_foldl_invariant (fun d' => d' = d) _ _ d rfl ?_
  intro pn hpn d' hd'
  rw [List.mem_map] at hpn
  obtain ⟨p, hp, rfl⟩ := hpn
  rw [hd']
  have hmem := mem_interval_mem_pixels pow22 hI hp
  rw [mem_buildLinePixels] at hmem
  obtain ⟨i, hi, rfl⟩ := hmem
  exact writePx_self d _ _ rfl rfl rfl rfl

lemma processLine_sorted_self (pow22 : ℚ → ℚ) (rng : ℕ → ℚ) (W : ℕ) (hz : Bool)
    (start len : ℕ) (opts : SortOptions) (h0 : opts.noiseAmount = 0)
    (d : List ℕ) (k : ℕ) (fixed : ℕ)
    (hs : ∀ I ∈ detectIntervals pow22 (buildLinePixels d W hz fixed start len) opts,
      I.Pairwise (fun p q => sortKey pow22 opts.mode p ≤ sortKey pow22 opts.mode q)) :
    processLine pow22 rng W hz start len opts (d, k) fixed = (d, k) := by
  rw [processLine_eq]
  refine list_foldl_invariant (fun st => st = (d, k)) _ _ _ rfl ?_
  intro I hI st hst
  rw [hst]
  exact processInterval_sorted_self pow22 rng W hz fixed start len opts h0 d k hI
    (hs I hI)

/-! ## Claims -/

/-- C2: the code violates the claim.  On every mode outside the seven
recognized ones, getPixelValue — and hence sort() — silently falls back
to the brightness scalar; it never fails with an UnsupportedMode error. -/
theorem claim2_unsupported_mode_falls_back (pow22 : ℚ → ℚ) (mode : String)
    (h : mode ∉ (["brightness", "hue", "saturation", "red", "green", "blue",
      "gamma"] : List String)) (r g b : ℕ) :
    getPixelValue pow22 r g b mode = getBrightness r g b := by
  simp only [List.mem_cons, List.not_mem_nil, or_false, not_or] at h
  obtain ⟨h1, h2, h3, h4, h5, h6, h7⟩ := h
  unfold getPixelValue
  rw [if_neg h1, if_neg h2, if_neg h3, if_neg h4, if_neg h5, if_neg h6, if_neg h7]

/-- C2 witness: the unrecognized mode "glitch" is mapped to brightness. -/
theorem claim2_witness :
    ("glitch" ∉ (["brightness", "hue", "saturation", "red", "green", "blue",
      "gamma"] : List String)) ∧
    getPixelValue qId 10 20 30 "glitch" = getBrightness 10 20 30 :=
  ⟨by decide, claim2_unsupported_mode_falls_back qId "glitch" (by decide) 10 20 30⟩

/-- C3: the code violates the claim.  sort() performs no option
validation: with thresholdLower = −10 and thresholdUpper = 300 (both
outside [0, 255]) it processes the 1×2 buffer and sorts it instead of
failing with a validation error; more generally sort() is total and
returns a processed buffer of the same length for EVERY options record,
including any out-of-range noiseAmount. -/
theorem claim3_no_option_validation :
    (opts3.thresholdLower < 0 ∧ 255 < opts3.thresholdUpper ∧
      (sort qId qId rng0 img3 sel3 opts3 0).1.data = [1, 0, 0, 255, 5, 0, 0, 255] ∧
      (sort qId qId rng0 img3 sel3 opts3 0).1.data ≠ img3.data) ∧
    (∀ (pow22 sqrtQ : ℚ → ℚ) (rng : ℕ → ℚ) (img : ImageData) (sel : Selection)
        (opts : SortOptions) (k : ℕ),
      ((sort pow22 sqrtQ rng img sel opts k).1.data.length = img.data.length ∧
        (sort pow22 sqrtQ rng img sel opts k).1.width = img.width)) := by
  constructor
  · refine ⟨by norm_num [opts3], by norm_num [opts3], ?_, ?_⟩ <;> decide
  · intro pow22 sqrtQ rng img sel opts k
    constructor
    · rw [sort_eq]
      simp only
      split
      · rw [featherPass_length, sortPass_length]
      · rw [sortPass_length]
    · rw [sort_eq]

/-- C4: with thresholdLower > thresholdUpper, interval detection yields
zero intervals on every line, and sort() returns the buffer byte-identical
(the feather pass, if enabled, blends the unchanged buffer with itself). -/
theorem claim4_empty_threshold_window_noop (pow22 sqrtQ : ℚ → ℚ) (rng : ℕ → ℚ)
    (img : ImageData) (sel : Selection) (opts : SortOptions) (k : ℕ)
    (hlt : opts.thresholdUpper < opts.thresholdLower)
    (hb : ∀ v ∈ img.data, v ≤ 255) :
    (∀ pixels, detectIntervals pow22 pixels opts = []) ∧
    sort pow22 sqrtQ rng img sel opts k = (img, k) := by
  have hnil := detectIntervals_nil pow22 (inIntervalTest_false_of_lt pow22 hlt)
  refine ⟨hnil, ?_⟩
  have hline : ∀ (st : List ℕ × ℕ) (fixed : ℕ),
      processLine pow22 rng img.width (dirHz opts) (lineStart sel (dirHz opts))
        (lineLen sel (dirHz opts)) opts st fixed = st := by
    intro st fixed
    rw [processLine_eq, hnil]
    rfl
  have hpass : sortPass pow22 rng img.width (dirHz opts) sel opts img.data k =
      (img.data, k) := by
    rw [sortPass_eq_linesFold]
    unfold linesFold
    refine list_foldl_invariant (fun st => st = (img.data, k)) _ _ _ rfl ?_
    intro i hi st hst
    rw [hst, hline]
  rw [sort_eq]
  unfold dirHz at hpass
  rw [hpass]
  by_cases hfe : opts.feather ∧ opts.featherRadius > 0
  · rw [if_pos hfe, featherPass_self sqrtQ img.width sel opts.selectionPoints
      opts.featherRadius img.data hb]
  · rw [if_neg hfe]

/-- C4 witness: the empty window 255/0 leaves the 1×2 buffer unchanged. -/
theorem claim4_witness :
    opts4.thresholdUpper < opts4.thresholdLower ∧ (∀ v ∈ img3.data, v ≤ 255) ∧
    (∀ pixels, detectIntervals qId pixels opts4 = []) ∧
    sort qId qId rng0 img3 sel3 opts4 0 = (img3, 0) := by
  have h := claim4_empty_threshold_window_noop qId qId rng0 img3 sel3 opts4 0
    (by norm_num [opts4]) (by decide)
  exact ⟨by norm_num [opts4], by decide, h.1, h.2⟩

/-- C6: with noiseAmount = 0, sort() consumes no randomness and is
deterministic: the output buffer is independent of the random stream and
of the counter position, the counter is returned unchanged, and the
noise stage returns every (sorted) interval untouched. -/
theorem claim6_noise_zero_determinism (pow22 sqrtQ : ℚ → ℚ) (rng rng' : ℕ → ℚ)
    (img : ImageData) (sel : Selection) (opts : SortOptions) (k k' : ℕ)
    (h0 : opts.noiseAmount = 0) :
    (sort pow22 sqrtQ rng img sel opts k).1 = (sort pow22 sqrtQ rng' img sel opts k').1 ∧
    (sort pow22 sqrtQ rng img sel opts k).2 = k ∧
    (∀ l m, applyNoise rng l opts.noiseAmount m = (l, m)) := by
  have hz2 := sortPass_zero2 pow22 rng rng' img.width
    (decide (opts.direction = "horizontal")) sel opts h0 img.data k k'
  refine ⟨?_, ?_, ?_⟩
  · rw [sort_eq, sort_eq]
    simp only
    rw [hz2]
  · rw [sort_eq]
    simp only
    rw [hz2]
  · intro l m
    rw [h0]
    exact applyNoise_zero rng l 0 m le_rfl

/-- C6 witness: two different streams and counters give the same output
on the 1×4 example. -/
theorem claim6_witness :
    opts1.noiseAmount = 0 ∧
    (sort qId qId rng0 img1 sel1 opts1 0).1 = (sort qId qId rng1 img1 sel1 opts1 7).1 ∧
    (sort qId qId rng0 img1 sel1 opts1 0).2 = 0 ∧
    (∀ l m, applyNoise rng0 l opts1.noiseAmount m = (l, m)) := by
  have h := claim6_noise_zero_determinism qId qId rng0 rng1 img1 sel1 opts1 0 7 rfl
  exact ⟨rfl, h.1, h.2.1, h.2.2⟩

/-- C1: with noiseAmount 0 and feather off, sort() writes back, for every
detected interval of every line, exactly the interval's colours reordered
ascending by the chosen mode's scalar (a sorted permutation), at the
interval's original positions; in particular on the 1×4 red example the
output row is [(1,0,0,255),(5,0,0,255),(8,0,0,255),(10,0,0,255)]. -/
theorem claim1_interval_sort_writeback :
    (∀ (pow22 sqrtQ : ℚ → ℚ) (rng : ℕ → ℚ) (img : ImageData) (sel : Selection)
        (opts : SortOptions) (k imgH i0 : ℕ) (I : List Px),
      opts.noiseAmount = 0 → opts.feather = false →
      sel.x + sel.w ≤ img.width → sel.y + sel.h ≤ imgH →
      img.data.length = img.width * imgH * 4 →
      i0 < lineCount sel (dirHz opts) →
      I ∈ detectIntervals pow22
        (buildLinePixels img.data img.width (dirHz opts)
          (lineBase sel (dirHz opts) + i0) (lineStart sel (dirHz opts))
          (lineLen sel (dirHz opts))) opts →
      (sortPixels (sortKey pow22 opts.mode) I).Perm I ∧
      (sortPixels (sortKey pow22 opts.mode) I).Pairwise
        (fun p q => sortKey pow22 opts.mode p ≤ sortKey pow22 opts.mode q) ∧
      ∀ j (hj : j < I.length),
        readBlock (sort pow22 sqrtQ rng img sel opts k).1.data
            (lineOff img.width (dirHz opts) (lineBase sel (dirHz opts) + i0)
              ((I.get ⟨j, hj⟩).orig)) =
          colorOf ((sortPixels (sortKey pow22 opts.mode) I).get
            ⟨j, by rw [sortPixels_length]; exact hj⟩)) ∧
    (sort qId qId rng0 img1 sel1 opts1 0).1.data =
      [1, 0, 0, 255, 5, 0, 0, 255, 8, 0, 0, 255, 10, 0, 0, 255] := by
  constructor
  · intro pow22 sqrtQ rng img sel opts k imgH i0 I h0 hfe hW hH hdlen hi0 hI
    refine ⟨sortPixels_perm _ I, sortPixels_sorted _ I, ?_⟩
    intro j hj
    have hsort : (sort pow22 sqrtQ rng img sel opts k).1.data =
        (sortPass pow22 rng img.width (dirHz opts) sel opts img.data k).1 := by
      rw [sort_eq]
      simp only
      rw [if_neg (by rw [hfe]; simp)]
      rfl
    rw [hsort, sortPass_eq_linesFold]
    have hzb : dirHz opts = true →
        lineStart sel (dirHz opts) + lineLen sel (dirHz opts) ≤ img.width := by
      intro h
      rw [h]
      unfold lineStart lineLen
      simpa using hW
    have hfb : dirHz opts = false →
        lineBase sel (dirHz opts) + lineCount sel (dirHz opts) ≤ img.width := by
      intro h
      rw [h]
      unfold lineBase lineCount
      simpa using hW
    have hlen : ∀ pos, lineStart sel (dirHz opts) ≤ pos →
        pos < lineStart sel (dirHz opts) + lineLen sel (dirHz opts) →
        lineOff img.width (dirHz opts) (lineBase sel (dirHz opts) + i0) pos + 3 <
          img.data.length := by
      intro pos hp1 hp2
      rw [hdlen]
      refine lineOff_lt_length (dirHz opts) ?_ ?_
      · intro h
        rw [h] at hp2 hi0 ⊢
        simp only [lineBase, lineStart, lineLen, lineCount, if_pos] at hp2 hi0 ⊢
        omega
      · intro h
        rw [h] at hp2 hi0 ⊢
        simp only [lineBase, lineStart, lineLen, lineCount, Bool.false_eq_true,
          if_false] at hp2 hi0 ⊢
        omega
    obtain ⟨k', hk'⟩ := linesFold_interval_readBlock pow22 rng img.width (dirHz opts)
      (lineStart sel (dirHz opts)) (lineLen sel (dirHz opts)) opts
      (lineBase sel (dirHz opts)) (lineCount sel (dirHz opts)) img.data k i0 hi0
      hzb hfb hlen hI
    have hres := hk' j hj
    have hnz : (applyNoise rng (sortPixels (sortKey pow22 opts.mode) I)
        opts.noiseAmount k').1 = sortPixels (sortKey pow22 opts.mode) I := by
      rw [h0, applyNoise_zero rng _ 0 k' le_rfl]
    rw [hres]
    exact congrArg colorOf (list_get_congr hnz _ _)
  · decide

/-- C1 witness: the general statement instantiated on the 1×4 red row:
the full run is detected as one interval, its sorted permutation is
ascending, and position 0 receives colour (1,0,0,255). -/
theorem claim1_witness :
    (opts1.noiseAmount = 0 ∧ opts1.feather = false ∧ sel1.x + sel1.w ≤ img1.width ∧
      sel1.y + sel1.h ≤ 1 ∧ img1.data.length = img1.width * 1 * 4 ∧
      0 < lineCount sel1 (dirHz opts1) ∧
      intvl1 ∈ detectIntervals qId
        (buildLinePixels img1.data img1.width (dirHz opts1)
          (lineBase sel1 (dirHz opts1) + 0) (lineStart sel1 (dirHz opts1))
          (lineLen sel1 (dirHz opts1))) opts1) ∧
    (sortPixels (sortKey qId opts1.mode) intvl1).Perm intvl1 ∧
    readBlock (sort qId qId rng0 img1 sel1 opts1 0).1.data
        (lineOff img1.width (dirHz opts1) (lineBase sel1 (dirHz opts1) + 0)
          ((intvl1.get ⟨0, by decide⟩).orig)) =
      colorOf ((sortPixels (sortKey qId opts1.mode) intvl1).get
        ⟨0, by rw [sortPixels_length]; decide⟩) := by
  have h := claim1_interval_sort_writeback.1 qId qId rng0 img1 sel1 opts1 0 1 0 intvl1
    rfl rfl (by decide) (by decide) (by decide) (by decide) (by decide)
  exact ⟨⟨rfl, rfl, by decide, by decide, by decide, by decide, by decide⟩,
    h.1, h.2.2 0 (by decide)⟩

/-- C8: a pixel outside the selection bounding box is byte-identical
before and after sort(), both after the per-line sorting pass alone and
after the full call including the feather pass. -/
theorem claim8_outside_bbox_untouched (pow22 sqrtQ : ℚ → ℚ) (rng : ℕ → ℚ)
    (img : ImageData) (sel : Selection) (opts : SortOptions) (k imgH : ℕ)
    (hW : sel.x + sel.w ≤ img.width) (hH : sel.y + sel.h ≤ imgH)
    (px py : ℕ) (hpx : px < img.width) (hpy : py < imgH)
    (hout : ¬ (sel.x ≤ px ∧ px < sel.x + sel.w ∧ sel.y ≤ py ∧ py < sel.y + sel.h)) :
    ∀ c < 4,
      (sortPass pow22 rng img.width (dirHz opts) sel opts img.data k).1.getD
          ((py * img.width + px) * 4 + c) 0 =
        img.data.getD ((py * img.width + px) * 4 + c) 0 ∧
      (sort pow22 sqrtQ rng img sel opts k).1.data.getD
          ((py * img.width + px) * 4 + c) 0 =
        img.data.getD ((py * img.width + px) * 4 + c) 0 := by
  intro c hc
  have hpass : (sortPass pow22 rng img.width (dirHz opts) sel opts img.data k).1.getD
      ((py * img.width + px) * 4 + c) 0 =
      img.data.getD ((py * img.width + px) * 4 + c) 0 := by
    rw [sortPass_eq_linesFold]
    unfold linesFold
    apply foldLines_getD_ne
    intro i hi pos hp1 hp2 c2 hc2
    rw [List.mem_range] at hi
    exact outside_bbox_lineOff_ne (dirHz opts) hW hpx hout hi hp1 hp2 hc hc2
  refine ⟨hpass, ?_⟩
  rw [sort_eq]
  simp only
  split
  · have hfp : (featherPass sqrtQ img.data img.width sel opts.selectionPoints
        opts.featherRadius
        (sortPass pow22 rng img.width (decide (opts.direction = "horizontal")) sel opts
          img.data k).1).getD ((py * img.width + px) * 4 + c) 0 =
        (sortPass pow22 rng img.width (decide (opts.direction = "horizontal")) sel opts
          img.data k).1.getD ((py * img.width + px) * 4 + c) 0 := by
      apply featherPass_getD_ne
      intro i hi j hj c2 hc2
      refine bbox_block_ne hpx (by omega) ?_ hc hc2
      by_contra hcon
      push_neg at hcon
      exact hout ⟨by omega, by omega, by omega, by omega⟩
    rw [hfp]
    exact hpass
  · exact hpass

/-- C8 witness: on the 1×4 example restricted to a 1×2 selection, the
pixel (2,0) outside the box keeps its red byte. -/
theorem claim8_witness :
    (sel3.x + sel3.w ≤ img1.width ∧ sel3.y + sel3.h ≤ 1 ∧ 2 < img1.width ∧ 0 < 1 ∧
      ¬ (sel3.x ≤ 2 ∧ 2 < sel3.x + sel3.w ∧ sel3.y ≤ 0 ∧ 0 < sel3.y + sel3.h)) ∧
    (sort qId qId rng0 img1 sel3 opts1 0).1.data.getD ((0 * img1.width + 2) * 4 + 0) 0 =
      img1.data.getD ((0 * img1.width + 2) * 4 + 0) 0 := by
  have h := claim8_outside_bbox_untouched qId qId rng0 img1 sel3 opts1 0 1
    (by decide) (by decide) 2 0 (by decide) (by decide) (by decide) 0 (by decide)
  exact ⟨⟨by decide, by decide, by decide, by decide, by decide⟩, h.2⟩

/-- C9: sort() is idempotent on sorted data: if every interval detected
on the original buffer is already ascending in the chosen scalar, then
with noiseAmount 0 the call returns the buffer unchanged (feathering, if
enabled, blends the unchanged buffer with itself). -/
theorem claim9_idempotent_on_sorted (pow22 sqrtQ : ℚ → ℚ) (rng : ℕ → ℚ)
    (img : ImageData) (sel : Selection) (opts : SortOptions) (k : ℕ)
    (h0 : opts.noiseAmount = 0) (hb : ∀ v ∈ img.data, v ≤ 255)
    (hsorted : ∀ i, i < lineCount sel (dirHz opts) →
      ∀ I ∈ detectIntervals pow22
        (buildLinePixels img.data img.width (dirHz opts)
          (lineBase sel (dirHz opts) + i) (lineStart sel (dirHz opts))
          (lineLen sel (dirHz opts))) opts,
      I.Pairwise (fun p q => sortKey pow22 opts.mode p ≤ sortKey pow22 opts.mode q)) :
    sort pow22 sqrtQ rng img sel opts k = (img, k) := by
  have hpass : sortPass pow22 rng img.width (dirHz opts) sel opts img.data k =
      (img.data, k) := by
    rw [sortPass_eq_linesFold]
    unfold linesFold
    refine list_foldl_invariant (fun st => st = (img.data, k)) _ _ _ rfl ?_
    intro i hi st hst
    rw [List.mem_range] at hi
    rw [hst]
    exact processLine_sorted_self pow22 rng img.width (dirHz opts)
      (lineStart sel (dirHz opts)) (lineLen sel (dirHz opts)) opts h0 img.data k
      (lineBase sel (dirHz opts) + i) (hsorted i hi)
  rw [sort_eq]
  unfold dirHz at hpass
  rw [hpass]
  by_cases hfe : opts.feather ∧ opts.featherRadius > 0
  · rw [if_pos hfe, featherPass_self sqrtQ img.width sel opts.selectionPoints
      opts.featherRadius img.data hb]
  · rw [if_neg hfe]

/-- C9 witness: a 1×2 buffer already ascending in red is returned
unchanged. -/
theorem claim9_witness :
    (opts1.noiseAmount = 0 ∧ (∀ v ∈ img9.data, v ≤ 255) ∧
      (∀ i, i < lineCount sel3 (dirHz opts1) →
        ∀ I ∈ detectIntervals qId
          (buildLinePixels img9.data img9.width (dirHz opts1)
            (lineBase sel3 (dirHz opts1) + i) (lineStart sel3 (dirHz opts1))
            (lineLen sel3 (dirHz opts1))) opts1,
        I.Pairwise (fun p q => sortKey qId opts1.mode p ≤ sortKey qId opts1.mode q))) ∧
    sort qId qId rng0 img9 sel3 opts1 0 = (img9, 0) := by
  refine ⟨⟨rfl, by decide, by decide⟩, ?_⟩
  exact claim9_idempotent_on_sorted qId qId rng0 img9 sel3 opts1 0 rfl (by decide)
    (by decide)

/-- The colours of interval members are the buffer blocks at their
positions. -/
lemma interval_colorOf_readBlock (pow22 : ℚ → ℚ) {data : List ℕ} {W : ℕ} {hz : Bool}
    {fixed start len : ℕ} {opts : SortOptions} {I : List Px}
    (hI : I ∈ detectIntervals pow22 (buildLinePixels data W hz fixed start len) opts)
    {p : Px} (hp : p ∈ I) :
    colorOf p = readBlock data (lineOff W hz fixed p.orig) := by
  have hmem := mem_interval_mem_pixels pow22 hI hp
  rw [mem_buildLinePixels] at hmem
  obtain ⟨i, hi, rfl⟩ := hmem
  rfl

/-- C10: with feather disabled, sort() only permutes colours within each
detected interval: the multiset of RGBA blocks at an interval's positions
is preserved for any noiseAmount, and any byte belonging to no interval
position is unchanged. -/
theorem claim10_multiset_invariant (pow22 sqrtQ : ℚ → ℚ) (rng : ℕ → ℚ)
    (img : ImageData) (sel : Selection) (opts : SortOptions) (k imgH : ℕ)
    (hfe : opts.feather = false)
    (hW : sel.x + sel.w ≤ img.width) (hH : sel.y + sel.h ≤ imgH)
    (hdlen : img.data.length = img.width * imgH * 4) :
    (∀ i0, i0 < lineCount sel (dirHz opts) →
      ∀ I ∈ detectIntervals pow22
        (buildLinePixels img.data img.width (dirHz opts)
          (lineBase sel (dirHz opts) + i0) (lineStart sel (dirHz opts))
          (lineLen sel (dirHz opts))) opts,
      (((I.map (fun p => p.orig)).map (fun pos =>
          readBlock (sort pow22 sqrtQ rng img sel opts k).1.data
            (lineOff img.width (dirHz opts) (lineBase sel (dirHz opts) + i0) pos)) :
        List (ℕ × ℕ × ℕ × ℕ)) : Multiset (ℕ × ℕ × ℕ × ℕ)) =
        (((I.map (fun p => p.orig)).map (fun pos =>
          readBlock img.data
            (lineOff img.width (dirHz opts) (lineBase sel (dirHz opts) + i0) pos)) :
        List (ℕ × ℕ × ℕ × ℕ)) : Multiset (ℕ × ℕ × ℕ × ℕ))) ∧
    (∀ n : ℕ,
      (∀ i0, i0 < lineCount sel (dirHz opts) →
        ∀ I ∈ detectIntervals pow22
          (buildLinePixels img.data img.width (dirHz opts)
            (lineBase sel (dirHz opts) + i0) (lineStart sel (dirHz opts))
            (lineLen sel (dirHz opts))) opts,
        ∀ p ∈ I, ∀ c < 4,
          n ≠ lineOff img.width (dirHz opts) (lineBase sel (dirHz opts) + i0) p.orig + c) →
      (sort pow22 sqrtQ rng img sel opts k).1.data.getD n 0 = img.data.getD n 0) := by
  have hsort : (sort pow22 sqrtQ rng img sel opts k).1.data =
      (sortPass pow22 rng img.width (dirHz opts) sel opts img.data k).1 := by
    rw [sort_eq]
    simp only
    rw [if_neg (by rw [hfe]; simp)]
    rfl
  have hzb : dirHz opts = true →
      lineStart sel (dirHz opts) + lineLen sel (dirHz opts) ≤ img.width := by
    intro h
    rw [h]
    simp only [lineStart, lineLen, if_pos]
    exact hW
  have hfb : dirHz opts = false →
      lineBase sel (dirHz opts) + lineCount sel (dirHz opts) ≤ img.width := by
    intro h
    rw [h]
    simp only [lineBase, lineCount, Bool.false_eq_true, if_false]
    exact hW
  constructor
  · intro i0 hi0 I hI
    have hlen : ∀ pos, lineStart sel (dirHz opts) ≤ pos →
        pos < lineStart sel (dirHz opts) + lineLen sel (dirHz opts) →
        lineOff img.width (dirHz opts) (lineBase sel (dirHz opts) + i0) pos + 3 <
          img.data.length := by
      intro pos hp1 hp2
      rw [hdlen]
      refine lineOff_lt_length (dirHz opts) ?_ ?_
      · intro h
        rw [h] at hp2 hi0 ⊢
        simp only [lineBase, lineStart, lineLen, lineCount, if_pos] at hp2 hi0 ⊢
        omega
      · intro h
        rw [h] at hp2 hi0 ⊢
        simp only [lineBase, lineStart, lineLen, lineCount, Bool.false_eq_true,
          if_false] at hp2 hi0 ⊢
        omega
    obtain ⟨k', hk'⟩ := linesFold_interval_readBlock pow22 rng img.width (dirHz opts)
      (lineStart sel (dirHz opts)) (lineLen sel (dirHz opts)) opts
      (lineBase sel (dirHz opts)) (lineCount sel (dirHz opts)) img.data k i0 hi0
      hzb hfb hlen hI
    have hlN : (applyNoise rng (sortPixels (sortKey pow22 opts.mode) I)
        opts.noiseAmount k').1.length = I.length := by
      rw [applyNoise_length, sortPixels_length]
    have hLout : (I.map (fun p => p.orig)).map (fun pos =>
        readBlock (sort pow22 sqrtQ rng img sel opts k).1.data
          (lineOff img.width (dirHz opts) (lineBase sel (dirHz opts) + i0) pos)) =
        (applyNoise rng (sortPixels (sortKey pow22 opts.mode) I)
          opts.noiseAmount k').1.map colorOf := by
      apply List.ext_getElem
      · simp [hlN]
      · intro j h1 h2
        have hj : j < I.length := by simpa using h1
        simp only [List.getElem_map]
        have h := hk' j hj
        rw [← sortPass_eq_linesFold, ← hsort] at h
        simp only [List.get_eq_getElem] at h
        exact h
    have hLin : (I.map (fun p => p.orig)).map (fun pos =>
        readBlock img.data
          (lineOff img.width (dirHz opts) (lineBase sel (dirHz opts) + i0) pos)) =
        I.map colorOf := by
      apply List.ext_getElem
      · simp
      · intro j h1 h2
        have hj : j < I.length := by simpa using h1
        simp only [List.getElem_map]
        have h := (interval_colorOf_readBlock pow22 hI (List.get_mem I j hj)).symm
        simp only [List.get_eq_getElem] at h
        exact h
    rw [hLout, hLin]
    have h1 : (↑((applyNoise rng (sortPixels (sortKey pow22 opts.mode) I)
        opts.noiseAmount k').1.map colorOf) : Multiset (ℕ × ℕ × ℕ × ℕ)) =
        colorsOf (applyNoise rng (sortPixels (sortKey pow22 opts.mode) I)
          opts.noiseAmount k').1 := rfl
    have h2 : (↑(I.map colorOf) : Multiset (ℕ × ℕ × ℕ × ℕ)) = colorsOf I := rfl
    rw [h1, h2, applyNoise_colorsOf, sortPixels_colorsOf]
  · intro n hn
    rw [hsort, sortPass_eq_linesFold]
    exact linesFold_getD_untouched pow22 rng img.width (dirHz opts)
      (lineStart sel (dirHz opts)) (lineLen sel (dirHz opts)) opts
      (lineBase sel (dirHz opts)) (lineCount sel (dirHz opts)) img.data k hzb hfb hn

/-- C10 witness: on the 1×4 example the interval's colour multiset is
preserved, and byte 16 (outside every interval block) is unchanged. -/
theorem claim10_witness :
    (opts1.feather = false ∧ sel1.x + sel1.w ≤ img1.width ∧ sel1.y + sel1.h ≤ 1 ∧
      img1.data.length = img1.width * 1 * 4) ∧
    (((intvl1.map (fun p => p.orig)).map (fun pos =>
        readBlock (sort qId qId rng0 img1 sel1 opts1 0).1.data
          (lineOff img1.width (dirHz opts1) (lineBase sel1 (dirHz opts1) + 0) pos)) :
      List (ℕ × ℕ × ℕ × ℕ)) : Multiset (ℕ × ℕ × ℕ × ℕ)) =
      (((intvl1.map (fun p => p.orig)).map (fun pos =>
        readBlock img1.data
          (lineOff img1.width (dirHz opts1) (lineBase sel1 (dirHz opts1) + 0) pos)) :
      List (ℕ × ℕ × ℕ × ℕ)) : Multiset (ℕ × ℕ × ℕ × ℕ)) := by
  have h := claim10_multiset_invariant qId qId rng0 img1 sel1 opts1 0 1 rfl
    (by decide) (by decide) (by decide)
  exact ⟨⟨rfl, by decide, by decide, by decide⟩, h.1 0 (by decide) intvl1 (by decide)⟩

/-- C5: a pixel inside the selection's bounding box whose horizontal ray
to +infinity crosses an even number of polygon edges (outside under the
even-odd rule) is left unchanged by sort(), even when its scalar lies in
the threshold window (the statement holds for any scalar). -/
theorem claim5_polygon_mask_exclusion (pow22 sqrtQ : ℚ → ℚ) (rng : ℕ → ℚ)
    (img : ImageData) (sel : Selection) (opts : SortOptions) (k imgH : ℕ)
    (hpoly : 2 < opts.selectionPoints.length)
    (hW : sel.x + sel.w ≤ img.width) (hH : sel.y + sel.h ≤ imgH)
    (hdlen : img.data.length = img.width * imgH * 4)
    (hb : ∀ v ∈ img.data, v ≤ 255)
    (px py : ℕ)
    (hin : sel.x ≤ px ∧ px < sel.x + sel.w ∧ sel.y ≤ py ∧ py < sel.y + sel.h)
    (hout : (polyEdges opts.selectionPoints).countP
        (edgeCrosses ((px : ℚ), (py : ℚ))) % 2 = 0) :
    ∀ c < 4,
      (sort pow22 sqrtQ rng img sel opts k).1.data.getD
          ((py * img.width + px) * 4 + c) 0 =
        img.data.getD ((py * img.width + px) * 4 + c) 0 := by
  intro c hc
  have hmask : isPointInPolygon ((px : ℚ), (py : ℚ)) opts.selectionPoints = false := by
    rw [isPointInPolygon_parity _ _ (by omega)]
    simp [hout]
  have htest : ∀ p : Px, p.x = px → p.y = py → inIntervalTest pow22 opts p = false := by
    intro p hx hy
    unfold inIntervalTest
    simp only [hx, hy]
    rw [if_pos (by simpa using hpoly), hmask]
    simp
  have hzb : dirHz opts = true →
      lineStart sel (dirHz opts) + lineLen sel (dirHz opts) ≤ img.width := by
    intro h
    rw [h]
    simp only [lineStart, lineLen, if_pos]
    exact hW
  have hfb : dirHz opts = false →
      lineBase sel (dirHz opts) + lineCount sel (dirHz opts) ≤ img.width := by
    intro h
    rw [h]
    simp only [lineBase, lineCount, Bool.false_eq_true, if_false]
    exact hW
  -- stage 1: the per-line pass leaves the byte unchanged
  have hstage1 : ∀ c2, c2 < 4 →
      (sortPass pow22 rng img.width (dirHz opts) sel opts img.data k).1.getD
          ((py * img.width + px) * 4 + c2) 0 =
        img.data.getD ((py * img.width + px) * 4 + c2) 0 := by
    intro c2 hc2
    rw [sortPass_eq_linesFold]
    apply linesFold_getD_untouched pow22 rng img.width (dirHz opts)
      (lineStart sel (dirHz opts)) (lineLen sel (dirHz opts)) opts
      (lineBase sel (dirHz opts)) (lineCount sel (dirHz opts)) img.data k hzb hfb
    intro i0 hi0 I hI p hp c3 hc3 heq
    have htrue := detectIntervals_test pow22 hI hp
    have horange := interval_orig_range pow22 hI hp
    have hmem := mem_interval_mem_pixels pow22 hI hp
    rw [mem_buildLinePixels] at hmem
    obtain ⟨i, hi, hpe⟩ := hmem
    -- from the byte-offset equality derive that p sits at (px, py)
    have hxy : p.x = px ∧ p.y = py := by
      subst hpe
      rw [linePx_orig] at heq
      revert hi0 hi heq
      cases dirHz opts with
      | true =>
        intro hi0 hi heq
        simp only [lineBase, lineStart, lineLen, lineCount, if_pos] at heq hi0 hi ⊢
        unfold lineOff at heq
        simp only [if_pos] at heq
        have hm : py * img.width + px = (sel.y + i0) * img.width + (sel.x + i) := by
          generalize py * img.width + px = A at heq
          generalize (sel.y + i0) * img.width + (sel.x + i) = B at heq
          omega
        have hmm := mulW_add_inj (by omega) (by omega) hm
        obtain ⟨h1, h2⟩ := hmm
        rw [linePx_x, linePx_y]
        simp only [if_pos]
        omega
      | false =>
        intro hi0 hi heq
        simp only [lineBase, lineStart, lineLen, lineCount, Bool.false_eq_true,
          if_false] at heq hi0 hi ⊢
        unfold lineOff at heq
        simp only [Bool.false_eq_true, if_false] at heq
        have hm : py * img.width + px = (sel.y + i) * img.width + (sel.x + i0) := by
          generalize py * img.width + px = A at heq
          generalize (sel.y + i) * img.width + (sel.x + i0) = B at heq
          omega
        have hmm := mulW_add_inj (by omega) (by omega) hm
        obtain ⟨h1, h2⟩ := hmm
        rw [linePx_x, linePx_y]
        simp only [Bool.false_eq_true, if_false]
        omega
    rw [htest p hxy.1 hxy.2] at htrue
    exact Bool.false_ne_true htrue
  -- stage 2: the feather pass blends the unchanged block with itself
  rw [sort_eq]
  simp only
  split
  · rename_i hfe
    have hi0 : py - sel.y < sel.h := by omega
    have hj0 : px - sel.x < sel.w := by omega
    have hyi : sel.y + (py - sel.y) = py := by omega
    have hxj : sel.x + (px - sel.x) = px := by omega
    have hplen : (sortPass pow22 rng img.width
        (decide (opts.direction = "horizontal")) sel opts img.data k).1.length =
        img.data.length := sortPass_length ..
    have hblen : ((sel.y + (py - sel.y)) * img.width + (sel.x + (px - sel.x))) * 4 + 3 <
        (sortPass pow22 rng img.width (decide (opts.direction = "horizontal")) sel opts
          img.data k).1.length := by
      rw [hplen, hdlen, hyi, hxj]
      have hkey := @lineOff_lt_length img.width imgH true py px
        (fun _ => ⟨by omega, by omega⟩) (fun h => by simp at h)
      unfold lineOff at hkey
      simp only [if_pos] at hkey
      exact hkey
    have htgt := featherPass_target sqrtQ img.data img.width sel opts.selectionPoints
      opts.featherRadius
      (sortPass pow22 rng img.width (decide (opts.direction = "horizontal")) sel opts
        img.data k).1 (py - sel.y) (px - sel.x) hi0 hj0 hW hblen c hc
    rw [hyi, hxj] at htgt
    rw [htgt, featherAt_eq]
    have hd1 : ∀ c2, c2 < 4 →
        (sortPass pow22 rng img.width (decide (opts.direction = "horizontal")) sel opts
          img.data k).1.getD ((py * img.width + px) * 4 + c2) 0 =
          img.data.getD ((py * img.width + px) * 4 + c2) 0 := by
      intro c2 hc2
      exact hstage1 c2 hc2
    split
    · rw [blendAt_getD _ _ _ _ c hc (by rw [hyi, hxj] at hblen; exact hblen)]
      unfold blendCh
      rw [hd1 c hc, sub_self, zero_mul, add_zero]
      exact byteStore_nat _ (getD_le_255 hb _)
    · exact hd1 c hc
  · exact hstage1 c hc

/-- C5 witness: in the 3×3 box with the triangle pts5, the pixel (2, 0)
is outside the polygon (its ray crosses zero edges) and keeps its bytes. -/
theorem claim5_witness :
    (2 < opts5.selectionPoints.length ∧ sel5.x + sel5.w ≤ img5.width ∧
      sel5.y + sel5.h ≤ 3 ∧ img5.data.length = img5.width * 3 * 4 ∧
      (∀ v ∈ img5.data, v ≤ 255) ∧
      (sel5.x ≤ 2 ∧ 2 < sel5.x + sel5.w ∧ sel5.y ≤ 0 ∧ 0 < sel5.y + sel5.h) ∧
      (polyEdges opts5.selectionPoints).countP
        (edgeCrosses ((2 : ℚ), (0 : ℚ))) % 2 = 0) ∧
    (sort qId qId rng0 img5 sel5 opts5 0).1.data.getD ((0 * img5.width + 2) * 4 + 0) 0 =
      img5.data.getD ((0 * img5.width + 2) * 4 + 0) 0 := by
  have hcount : (polyEdges opts5.selectionPoints).countP
      (edgeCrosses ((2 : ℚ), (0 : ℚ))) % 2 = 0 := by
    have he : polyEdges opts5.selectionPoints =
        [((1/2, -1/2), (1/2, 5/2)), ((7/2, 5/2), (1/2, -1/2)),
          ((1/2, 5/2), (7/2, 5/2))] := rfl
    rw [he, List.countP_cons, List.countP_cons, List.countP_cons, List.countP_nil]
    have h1 : edgeCrosses ((2 : ℚ), (0 : ℚ)) ((1/2, -1/2), (1/2, 5/2)) = false := by
      unfold edgeCrosses
      norm_num
    have h2 : edgeCrosses ((2 : ℚ), (0 : ℚ)) ((7/2, 5/2), (1/2, -1/2)) = false := by
      unfold edgeCrosses
      norm_num
    have h3 : edgeCrosses ((2 : ℚ), (0 : ℚ)) ((1/2, 5/2), (7/2, 5/2)) = false := by
      unfold edgeCrosses
      norm_num
    rw [h1, h2, h3]
    simp
  refine ⟨⟨by decide, by decide, by decide, by decide, by decide, by decide, hcount⟩, ?_⟩
  exact claim5_polygon_mask_exclusion qId qId rng0 img5 sel5 opts5 0 3
    (by decide) (by decide) (by decide) (by decide) (by decide) 2 0 (by decide) hcount
    0 (by decide)

/-- C7 (amended): with feathering on and radius R > 0, a bounding-box
pixel at boundary distance 0 equals its original (pre-sort) value, a
pixel at distance ≥ R equals its fully-sorted value, and a pixel at
distance < R stores, per channel including alpha, the Uint8ClampedArray
conversion (clamp and round half to even) of
original + (sorted − original) · factor with factor = t²(3−2t),
t = clamp(dist/R, 0, 1). -/
theorem claim7_feather_blend (pow22 sqrtQ : ℚ → ℚ) (rng : ℕ → ℚ)
    (img : ImageData) (sel : Selection) (opts : SortOptions) (k imgH : ℕ)
    (hfe : opts.feather = true) (hR : 0 < opts.featherRadius)
    (hW : sel.x + sel.w ≤ img.width) (hH : sel.y + sel.h ≤ imgH)
    (hdlen : img.data.length = img.width * imgH * 4)
    (hb : ∀ v ∈ img.data, v ≤ 255)
    (col row : ℕ)
    (hin : sel.x ≤ col ∧ col < sel.x + sel.w ∧ sel.y ≤ row ∧ row < sel.y + sel.h) :
    (getDistanceToBoundary sqrtQ opts.selectionPoints sel.x sel.y sel.w sel.h
        (col : ℚ) (row : ℚ) = 0 →
      ∀ c < 4, (sort pow22 sqrtQ rng img sel opts k).1.data.getD
          ((row * img.width + col) * 4 + c) 0 =
        img.data.getD ((row * img.width + col) * 4 + c) 0) ∧
    (opts.featherRadius ≤ getDistanceToBoundary sqrtQ opts.selectionPoints sel.x sel.y
        sel.w sel.h (col : ℚ) (row : ℚ) →
      ∀ c < 4, (sort pow22 sqrtQ rng img sel opts k).1.data.getD
          ((row * img.width + col) * 4 + c) 0 =
        (sortPass pow22 rng img.width (dirHz opts) sel opts img.data k).1.getD
          ((row * img.width + col) * 4 + c) 0) ∧
    (getDistanceToBoundary sqrtQ opts.selectionPoints sel.x sel.y sel.w sel.h
        (col : ℚ) (row : ℚ) < opts.featherRadius →
      ∀ c < 4, (sort pow22 sqrtQ rng img sel opts k).1.data.getD
          ((row * img.width + col) * 4 + c) 0 =
        byteStore ((img.data.getD ((row * img.width + col) * 4 + c) 0 : ℚ) +
          (((sortPass pow22 rng img.width (dirHz opts) sel opts img.data k).1.getD
              ((row * img.width + col) * 4 + c) 0 : ℚ) -
            (img.data.getD ((row * img.width + col) * 4 + c) 0 : ℚ)) *
          featherFactor
            (getDistanceToBoundary sqrtQ opts.selectionPoints sel.x sel.y sel.w sel.h
              (col : ℚ) (row : ℚ)) opts.featherRadius)) := by
  have hi0 : row - sel.y < sel.h := by omega
  have hj0 : col - sel.x < sel.w := by omega
  have hyi : sel.y + (row - sel.y) = row := by omega
  have hxj : sel.x + (col - sel.x) = col := by omega
  have hplen : (sortPass pow22 rng img.width (decide (opts.direction = "horizontal"))
      sel opts img.data k).1.length = img.data.length := sortPass_length ..
  have hblen0 : (row * img.width + col) * 4 + 3 <
      (sortPass pow22 rng img.width (decide (opts.direction = "horizontal")) sel opts
        img.data k).1.length := by
    rw [hplen, hdlen]
    have hkey := @lineOff_lt_length img.width imgH true row col
      (fun _ => ⟨by omega, by omega⟩) (fun h => by simp at h)
    unfold lineOff at hkey
    simp only [if_pos] at hkey
    exact hkey
  have hblen : ((sel.y + (row - sel.y)) * img.width + (sel.x + (col - sel.x))) * 4 + 3 <
      (sortPass pow22 rng img.width (decide (opts.direction = "horizontal")) sel opts
        img.data k).1.length := by
    rw [hyi, hxj]
    exact hblen0
  have hout : ∀ c, c < 4 →
      (sort pow22 sqrtQ rng img sel opts k).1.data.getD
          ((row * img.width + col) * 4 + c) 0 =
        (featherAt sqrtQ img.data img.width sel opts.selectionPoints opts.featherRadius
          (sortPass pow22 rng img.width (decide (opts.direction = "horizontal")) sel opts
            img.data k).1 row col).getD ((row * img.width + col) * 4 + c) 0 := by
    intro c hc
    rw [sort_eq]
    simp only
    rw [if_pos ⟨hfe, hR⟩]
    have htgt := featherPass_target sqrtQ img.data img.width sel opts.selectionPoints
      opts.featherRadius
      (sortPass pow22 rng img.width (decide (opts.direction = "horizontal")) sel opts
        img.data k).1 (row - sel.y) (col - sel.x) hi0 hj0 hW hblen c hc
    rw [hyi, hxj] at htgt
    exact htgt
  refine ⟨?_, ?_, ?_⟩
  · intro hdist c hc
    have h3 : getDistanceToBoundary sqrtQ opts.selectionPoints sel.x sel.y sel.w sel.h
        (col : ℚ) (row : ℚ) < opts.featherRadius := by
      rw [hdist]
      exact hR
    rw [hout c hc, featherAt_eq, if_pos h3,
      blendAt_getD _ _ _ _ c hc hblen0]
    unfold blendCh
    rw [hdist]
    have hff : featherFactor 0 opts.featherRadius = 0 := by
      unfold featherFactor
      rw [zero_div]
      simp
    rw [hff, mul_zero, add_zero]
    exact byteStore_nat _ (getD_le_255 hb _)
  · intro hdist c hc
    rw [hout c hc, featherAt_eq, if_neg (by exact not_lt.mpr hdist)]
    rfl
  · intro hdist c hc
    rw [hout c hc, featherAt_eq, if_pos hdist,
      blendAt_getD _ _ _ _ c hc hblen0]
    rfl

/-- Witness for C7 at the 3×5 feather example, pixel (1, 2): radius is
positive and the three blend clauses hold there. -/
theorem claim7_witness :
    (0 : ℚ) < opts7.featherRadius ∧
    ((getDistanceToBoundary qId opts7.selectionPoints sel7.x sel7.y sel7.w sel7.h
        ((1 : ℕ) : ℚ) ((2 : ℕ) : ℚ) = 0 →
      ∀ c < 4, (sort qId qId rng0 img7 sel7 opts7 0).1.data.getD
          ((2 * img7.width + 1) * 4 + c) 0 =
        img7.data.getD ((2 * img7.width + 1) * 4 + c) 0) ∧
    (opts7.featherRadius ≤ getDistanceToBoundary qId opts7.selectionPoints sel7.x sel7.y
        sel7.w sel7.h ((1 : ℕ) : ℚ) ((2 : ℕ) : ℚ) →
      ∀ c < 4, (sort qId qId rng0 img7 sel7 opts7 0).1.data.getD
          ((2 * img7.width + 1) * 4 + c) 0 =
        (sortPass qId rng0 img7.width (dirHz opts7) sel7 opts7 img7.data 0).1.getD
          ((2 * img7.width + 1) * 4 + c) 0) ∧
    (getDistanceToBoundary qId opts7.selectionPoints sel7.x sel7.y sel7.w sel7.h
        ((1 : ℕ) : ℚ) ((2 : ℕ) : ℚ) < opts7.featherRadius →
      ∀ c < 4, (sort qId qId rng0 img7 sel7 opts7 0).1.data.getD
          ((2 * img7.width + 1) * 4 + c) 0 =
        byteStore ((img7.data.getD ((2 * img7.width + 1) * 4 + c) 0 : ℚ) +
          (((sortPass qId rng0 img7.width (dirHz opts7) sel7 opts7 img7.data 0).1.getD
              ((2 * img7.width + 1) * 4 + c) 0 : ℚ) -
            (img7.data.getD ((2 * img7.width + 1) * 4 + c) 0 : ℚ)) *
          featherFactor
            (getDistanceToBoundary qId opts7.selectionPoints sel7.x sel7.y sel7.w sel7.h
              ((1 : ℕ) : ℚ) ((2 : ℕ) : ℚ)) opts7.featherRadius))) :=
  ⟨by norm_num [opts7],
   claim7_feather_blend qId qId rng0 img7 sel7 opts7 0 5 rfl (by norm_num [opts7])
     (by decide) (by decide) (by decide) (by decide) 1 2 (by decide)⟩

/-- C7 counterexample: on the 3×5 feather example, the pixel (1, 2) has
boundary distance 1 with radius 2; the engine stores byte 2 while the
claim's exact formula original + (sorted − original) · factor gives 5/2,
so the claim's in-between clause is false as stated. -/
theorem claim7_counterexample :
    getDistanceToBoundary qId [] 0 0 3 5 (1 : ℚ) (2 : ℚ) = 1 ∧
    (0 : ℚ) < 1 ∧ (1 : ℚ) < 2 ∧
    img7.data.getD 28 0 = 0 ∧
    (sortPass qId rng0 3 (dirHz opts7) sel7 opts7 img7.data 0).1.getD 28 0 = 5 ∧
    (sort qId qId rng0 img7 sel7 opts7 0).1.data.getD 28 0 = 2 ∧
    ¬ (((sort qId qId rng0 img7 sel7 opts7 0).1.data.getD 28 0 : ℚ) =
      (img7.data.getD 28 0 : ℚ) +
        (((sortPass qId rng0 3 (dirHz opts7) sel7 opts7 img7.data 0).1.getD 28 0 : ℚ) -
          (img7.data.getD 28 0 : ℚ)) *
        featherFactor (getDistanceToBoundary qId [] 0 0 3 5 (1 : ℚ) (2 : ℚ)) 2) := by
  have hdist : getDistanceToBoundary qId [] 0 0 3 5 (1 : ℚ) (2 : ℚ) = 1 := by
    unfold getDistanceToBoundary
    norm_num
  have hff : featherFactor 1 2 = 1/2 := by
    unfold featherFactor
    norm_num
  have hsorted : (sortPass qId rng0 3 (dirHz opts7) sel7 opts7 img7.data 0).1.getD 28 0 = 5 := by
    decide
  have horig : img7.data.getD 28 0 = 0 := by decide
  have hbs : byteStore (5/2 : ℚ) = 2 := by
    unfold byteStore
    norm_num
    decide
  have hval : (sort qId qId rng0 img7 sel7 opts7 0).1.data.getD 28 0 = 2 := by
    have hplen : (sortPass qId rng0 3 (dirHz opts7) sel7 opts7 img7.data 0).1.length =
        img7.data.length := sortPass_length ..
    have hblen : ((0 + 2) * 3 + (0 + 1)) * 4 + 3 <
        (sortPass qId rng0 3 (dirHz opts7) sel7 opts7 img7.data 0).1.length := by
      rw [hplen]
      decide
    have htgt := featherPass_target qId img7.data 3 sel7 [] 2
      (sortPass qId rng0 3 (dirHz opts7) sel7 opts7 img7.data 0).1 2 1
      (by decide) (by decide) (by decide) hblen 0 (by decide)
    have hsort7 : (sort qId qId rng0 img7 sel7 opts7 0).1.data =
        featherPass qId img7.data 3 sel7 [] 2
          (sortPass qId rng0 3 (dirHz opts7) sel7 opts7 img7.data 0).1 := by
      rw [sort_eq]
      simp only
      rw [if_pos ⟨rfl, by norm_num [opts7]⟩]
      rfl
    rw [hsort7]
    have h28 : ((sel7.y + 2) * 3 + (sel7.x + 1)) * 4 + 0 = 28 := by decide
    rw [h28] at htgt
    rw [htgt, featherAt_eq]
    have hd : getDistanceToBoundary qId [] sel7.x sel7.y sel7.w sel7.h
        ((sel7.x + 1 : ℕ) : ℚ) ((sel7.y + 2 : ℕ) : ℚ) = 1 := by
      unfold getDistanceToBoundary
      norm_num [sel7]
    rw [if_pos (by rw [hd]; norm_num)]
    have hb28 : ((sel7.y + 2) * 3 + (sel7.x + 1)) * 4 = 28 := by decide
    rw [hb28]
    have hbl := blendAt_getD (sortPass qId rng0 3 (dirHz opts7) sel7 opts7 img7.data 0).1
      img7.data 28 (featherFactor (getDistanceToBoundary qId [] sel7.x sel7.y sel7.w sel7.h
        ((sel7.x + 1 : ℕ) : ℚ) ((sel7.y + 2 : ℕ) : ℚ)) 2) 0 (by omega) (by rw [hplen]; decide)
    rw [Nat.add_zero] at hbl
    rw [hbl]
    unfold blendCh
    rw [hd, hff, hsorted, horig]
    norm_num
    exact hbs
  refine ⟨hdist, by norm_num, by norm_num, horig, hsorted, hval, ?_⟩
  rw [hval, horig, hsorted, hdist, hff]
  norm_num

end PixelSort
